import Mathlib

/-
Verification of the Aadhaar enrolment/update analytics pipeline
(`src/preprocessing.py`, `src/analysis.py`).

Python strings are modelled as lists of Unicode code points (`List Nat`);
pandas dataframes as a header of column names plus a list of rows; pandas
`NaN`/`NaT` as the cell value `Val.vNull`; numeric cells as rationals.
Fallible pandas operations (`KeyError` on a missing column) return `Except`.
-/

set_option allowUnsafeReducibility true
attribute [local semireducible] Rat.add Rat.mul Rat.inv Rat.div Rat.sub Rat.neg Rat.blt

namespace AadhaarSpec

/-- Python string model: a list of Unicode code points. -/
abbrev PyStr := List Nat

/-- Code points of a Lean string literal. -/
def strLit (s : String) : PyStr := s.data.map Char.toNat

/-- Python `str.lower` on one code point (ASCII range, as in the data). -/
def pyLowerC (c : Nat) : Nat := if 65 ≤ c ∧ c ≤ 90 then c + 32 else c

/-- Python `str.upper` on one code point (ASCII range). -/
def pyUpperC (c : Nat) : Nat := if 97 ≤ c ∧ c ≤ 122 then c - 32 else c

/-- ASCII letter test (the cased characters relevant to the datasets). -/
def isAlphaC (c : Nat) : Bool := (65 ≤ c && c ≤ 90) || (97 ≤ c && c ≤ 122)

/-- ASCII digit test, the `\d` of the validation regexes. -/
def isDigitC (c : Nat) : Bool := 48 ≤ c && c ≤ 57

/-- Python whitespace (`str.strip` default set). -/
def isSpaceC (c : Nat) : Bool := c == 32 || c == 9 || c == 10 || c == 13 || c == 11 || c == 12

/-- Python `str.lower`. -/
def pyLower (s : PyStr) : PyStr := s.map pyLowerC

/-- Python `str.strip`: drop leading and trailing whitespace. -/
def pyStrip (s : PyStr) : PyStr :=
  ((s.dropWhile isSpaceC).reverse.dropWhile isSpaceC).reverse

/-- Worker for `pyTitle`; the flag records whether the previous character was cased. -/
def pyTitleAux : Bool → PyStr → PyStr
  | _, [] => []
  | prev, c :: cs =>
      (if isAlphaC c then (if prev then pyLowerC c else pyUpperC c) else c)
        :: pyTitleAux (isAlphaC c) cs

/-- Python `str.title`: uppercase a letter after a non-letter, lowercase otherwise. -/
def pyTitle (s : PyStr) : PyStr := pyTitleAux false s

/-- The alias table `STATE_NAME_MAP` of `src/preprocessing.py`. -/
def STATE_NAME_MAP : List (PyStr × PyStr) :=
  [ (strLit "Andaman And Nicobar Islands", strLit "Andaman & Nicobar"),
    (strLit "Andaman and Nicobar Islands", strLit "Andaman & Nicobar"),
    (strLit "Andhra Pradesh", strLit "Andhra Pradesh"),
    (strLit "Andhra pradesh", strLit "Andhra Pradesh"),
    (strLit "Dadra And Nagar Haveli", strLit "Dadra & Nagar Haveli"),
    (strLit "Dadra and Nagar Haveli", strLit "Dadra & Nagar Haveli"),
    (strLit "Dadra And Nagar Haveli And Daman And Diu",
      strLit "Dadra & Nagar Haveli and Daman & Diu"),
    (strLit "The Dadra And Nagar Haveli And Daman And Diu",
      strLit "Dadra & Nagar Haveli and Daman & Diu"),
    (strLit "Daman And Diu", strLit "Daman & Diu"),
    (strLit "Daman and Diu", strLit "Daman & Diu"),
    (strLit "Jammu And Kashmir", strLit "Jammu & Kashmir"),
    (strLit "Jammu and Kashmir", strLit "Jammu & Kashmir"),
    (strLit "Orissa", strLit "Odisha"),
    (strLit "ODISHA", strLit "Odisha"),
    (strLit "Pondicherry", strLit "Puducherry"),
    (strLit "West Bangal", strLit "West Bengal"),
    (strLit "Westbengal", strLit "West Bengal"),
    (strLit "West bengal", strLit "West Bengal"),
    (strLit "WEST BENGAL", strLit "West Bengal"),
    (strLit "WESTBENGAL", strLit "West Bengal"),
    (strLit "West  Bengal", strLit "West Bengal") ]

/-- `pandas.Series.replace` with a dict: exact full-value lookup, identity if absent. -/
def mapLookup (t : List (PyStr × PyStr)) (s : PyStr) : PyStr :=
  match t.find? (fun p => p.1 == s) with
  | some p => p.2
  | none => s

/-- The value transformation of `normalize_state_names` on a single state name:
strip, alias lookup, title-case, alias lookup again (lines 49-55 of
`src/preprocessing.py`). -/
def normalizeStateName (s : PyStr) : PyStr :=
  mapLookup STATE_NAME_MAP (pyTitle (mapLookup STATE_NAME_MAP (pyStrip s)))

/-- The `^\d+$` test of `normalize_state_names` line 46: purely numeric token. -/
def isNumericStr (s : PyStr) : Bool := !s.isEmpty && s.all isDigitC

/-- The `^\d{6}$` test of `validate_pincode`. -/
def isSixDigit (s : PyStr) : Bool := s.length == 6 && s.all isDigitC

example : normalizeStateName (strLit "ORISSA") = strLit "Odisha" := by decide
example : normalizeStateName (strLit "Orissa") = strLit "Odisha" := by decide
example : normalizeStateName (strLit "WestBENGAL") = strLit "West Bengal" := by decide
example : normalizeStateName (strLit " andhra pradesh ") = strLit "Andhra Pradesh" := by decide
example : normalizeStateName (strLit "Karnataka") = strLit "Karnataka" := by decide
example : normalizeStateName (strLit "Dadra And Nagar Haveli And Daman And Diu")
    = strLit "Dadra & Nagar Haveli And Daman & Diu" := by decide
example : normalizeStateName (strLit "dadra and nagar haveli and daman and diu")
    = strLit "Dadra & Nagar Haveli and Daman & Diu" := by decide

/-! ### Date parsing (`parse_dates`, `pd.to_datetime(..., format='%d-%m-%Y', errors='coerce')`)

The strptime directives behind the format accept a one- or two-digit day in
1..31, a one- or two-digit month in 1..12, and an exactly four-digit year,
separated by literal dashes, consuming the whole string; an invalid calendar
date or a timestamp outside the representable `datetime64[ns]` day range
(1677-09-22 .. 2262-04-11) is coerced to `NaT`. -/

/-- Proleptic-Gregorian leap year, as in Python `datetime`. -/
def isLeap (y : Nat) : Bool := y % 4 == 0 && (y % 100 != 0 || y % 400 == 0)

/-- Days in a month. -/
def daysInMonth (m y : Nat) : Nat :=
  if m = 2 then (if isLeap y then 29 else 28)
  else if m = 4 ∨ m = 6 ∨ m = 9 ∨ m = 11 then 30 else 31

/-- A valid calendar date. -/
def validDMY (d m y : Nat) : Bool :=
  1 ≤ m && m ≤ 12 && 1 ≤ d && d ≤ daysInMonth m y

/-- Lexicographic key of a date. -/
def dateKey (d m y : Nat) : Nat := y * 10000 + m * 100 + d

/-- Midnight timestamps representable in `datetime64[ns]`. -/
def inNsBounds (d m y : Nat) : Bool :=
  16770922 ≤ dateKey d m y && dateKey d m y ≤ 22620411

/-- Split a string at dashes (code point 45); never returns `[]`. -/
def splitOnDash : PyStr → List PyStr
  | [] => [[]]
  | c :: t =>
    let r := splitOnDash t
    if c = 45 then [] :: r else (c :: r.headD []) :: r.tail

/-- Numeric value of a digit string. -/
def natOfDigits (s : PyStr) : Nat := s.foldl (fun a c => a * 10 + (c - 48)) 0

/-- `pd.to_datetime(s, format='%d-%m-%Y', errors='coerce')` on one string:
`some (day, month, year)` on success, `none` for `NaT`. -/
def parseDMY (s : PyStr) : Option (Nat × Nat × Nat) :=
  match splitOnDash s with
  | [p1, p2, p3] =>
    if p1.all isDigitC ∧ p2.all isDigitC ∧ p3.all isDigitC
        ∧ (p1.length = 1 ∨ p1.length = 2) ∧ (p2.length = 1 ∨ p2.length = 2)
        ∧ p3.length = 4
        ∧ validDMY (natOfDigits p1) (natOfDigits p2) (natOfDigits p3) = true
        ∧ inNsBounds (natOfDigits p1) (natOfDigits p2) (natOfDigits p3) = true
    then some (natOfDigits p1, natOfDigits p2, natOfDigits p3)
    else none
  | _ => none

/-- Modelled from the spec: the claimed strict `DD-MM-YYYY` format — a two-digit
day, two-digit month and four-digit year separated by dashes, denoting a valid
calendar date. -/
def specStrictCheck (s : PyStr) : Bool :=
  match s with
  | [d1, d2, h1, m1, m2, h2, y1, y2, y3, y4] =>
    h1 == 45 && h2 == 45
      && [d1, d2, m1, m2, y1, y2, y3, y4].all isDigitC
      && validDMY (natOfDigits [d1, d2]) (natOfDigits [m1, m2])
          (natOfDigits [y1, y2, y3, y4])
  | _ => false

/-- Modelled from the spec (amended claim): day-month-year with dash separators,
one- or two-digit day and month, four-digit year, a valid calendar date inside
the representable timestamp range. -/
def specFormatLax (s : PyStr) : Prop :=
  ∃ p1 p2 p3 : PyStr,
    s = p1 ++ (45 :: (p2 ++ (45 :: p3)))
    ∧ p1.all isDigitC = true ∧ p2.all isDigitC = true ∧ p3.all isDigitC = true
    ∧ (p1.length = 1 ∨ p1.length = 2) ∧ (p2.length = 1 ∨ p2.length = 2)
    ∧ p3.length = 4
    ∧ validDMY (natOfDigits p1) (natOfDigits p2) (natOfDigits p3) = true
    ∧ inNsBounds (natOfDigits p1) (natOfDigits p2) (natOfDigits p3) = true

/-- Two-digit zero-padded rendering. -/
def pad2 (n : Nat) : PyStr := [48 + n / 10, 48 + n % 10]

/-- Four-digit zero-padded rendering. -/
def pad4 (n : Nat) : PyStr :=
  [48 + n / 1000, 48 + n / 100 % 10, 48 + n / 10 % 10, 48 + n % 10]

/-- A calendar date written in `DD-MM-YYYY`. -/
def fmtDDMMYYYY (d m y : Nat) : PyStr := pad2 d ++ (45 :: (pad2 m ++ (45 :: pad4 y)))

/-- Joining with dashes, the inverse of `splitOnDash`. -/
def joinDash : List PyStr → PyStr
  | [] => []
  | [p] => p
  | p :: r => p ++ 45 :: joinDash r

theorem splitOnDash_ne_nil (s : PyStr) : splitOnDash s ≠ [] := by
  cases s with
  | nil => simp [splitOnDash]
  | cons c t => simp only [splitOnDash]; split <;> simp

theorem joinDash_splitOnDash (s : PyStr) : joinDash (splitOnDash s) = s := by
  induction s with
  | nil => rfl
  | cons c t ih =>
    cases h : splitOnDash t with
    | nil => exact absurd h (splitOnDash_ne_nil t)
    | cons hd r =>
      rw [h] at ih
      simp only [splitOnDash, h]
      by_cases hc : c = 45
      · subst hc
        simp only [if_pos rfl, joinDash]
        simpa [joinDash] using ih
      · simp only [if_neg hc, List.headD_cons, List.tail_cons]
        cases r with
        | nil => simp only [joinDash] at ih ⊢; rw [ih]
        | cons a b => simp only [joinDash] at ih ⊢; simp [ih]

theorem splitOnDash_dash_cons (x : PyStr) : splitOnDash (45 :: x) = [] :: splitOnDash x := by
  simp [splitOnDash]

theorem splitOnDash_cons_ne (c : Nat) (t : PyStr) (hc : c ≠ 45) :
    splitOnDash (c :: t) = (c :: (splitOnDash t).headD []) :: (splitOnDash t).tail := by
  simp [splitOnDash, hc]

theorem no_dash_of_mem_splitOnDash :
    ∀ (s p : PyStr), p ∈ splitOnDash s → ∀ c ∈ p, c ≠ 45 := by
  intro s
  induction s with
  | nil => intro p hp; simp [splitOnDash] at hp; simp [hp]
  | cons c t ih =>
    intro p hp
    cases h : splitOnDash t with
    | nil => exact absurd h (splitOnDash_ne_nil t)
    | cons hd r =>
      by_cases hc : c = 45
      · subst hc
        rw [splitOnDash_dash_cons, h] at hp
        rcases List.mem_cons.mp hp with h1 | h2
        · subst h1; simp
        · exact ih p (by rw [h]; exact h2)
      · rw [splitOnDash_cons_ne c t hc, h] at hp
        simp only [List.headD_cons, List.tail_cons] at hp
        rcases List.mem_cons.mp hp with h1 | h2
        · subst h1
          intro x hx
          rcases List.mem_cons.mp hx with rfl | hx
          · exact hc
          · exact ih hd (by rw [h]; simp) x hx
        · exact ih p (by rw [h]; simp [h2])

theorem splitOnDash_no_dash (p : PyStr) (h : ∀ c ∈ p, c ≠ 45) : splitOnDash p = [p] := by
  induction p with
  | nil => rfl
  | cons c t ih =>
    simp only [splitOnDash, ih (fun x hx => h x (by simp [hx]))]
    simp [h c (by simp)]

theorem splitOnDash_append (a s h' : PyStr) (r : List PyStr) (ha : ∀ c ∈ a, c ≠ 45)
    (hs : splitOnDash s = h' :: r) : splitOnDash (a ++ s) = (a ++ h') :: r := by
  induction a with
  | nil => simpa using hs
  | cons c ca ih =>
    have hc : c ≠ 45 := ha c (by simp)
    have ih' := ih (fun x hx => ha x (by simp [hx]))
    rw [List.cons_append, splitOnDash_cons_ne c _ hc, ih']
    simp

theorem isDigitC_ne_dash {c : Nat} (h : isDigitC c = true) : c ≠ 45 := by
  simp only [isDigitC, Bool.and_eq_true, decide_eq_true_eq] at h
  omega

theorem splitOnDash_three (p1 p2 p3 : PyStr)
    (h1 : p1.all isDigitC = true) (h2 : p2.all isDigitC = true)
    (h3 : p3.all isDigitC = true) :
    splitOnDash (p1 ++ (45 :: (p2 ++ (45 :: p3)))) = [p1, p2, p3] := by
  have n1 : ∀ c ∈ p1, c ≠ 45 := fun c hc => isDigitC_ne_dash (List.all_eq_true.mp h1 c hc)
  have n2 : ∀ c ∈ p2, c ≠ 45 := fun c hc => isDigitC_ne_dash (List.all_eq_true.mp h2 c hc)
  have n3 : ∀ c ∈ p3, c ≠ 45 := fun c hc => isDigitC_ne_dash (List.all_eq_true.mp h3 c hc)
  have e3 : splitOnDash (45 :: p3) = [] :: [p3] := by
    rw [splitOnDash_dash_cons, splitOnDash_no_dash p3 n3]
  have e2 : splitOnDash (p2 ++ (45 :: p3)) = [p2, p3] := by
    have := splitOnDash_append p2 (45 :: p3) [] [p3] n2 e3
    simpa using this
  have e1 : splitOnDash (45 :: (p2 ++ (45 :: p3))) = [] :: [p2, p3] := by
    rw [splitOnDash_dash_cons]; rw [e2]
  have := splitOnDash_append p1 (45 :: (p2 ++ (45 :: p3))) [] [p2, p3] n1 e1
  simpa using this

/-- `parseDMY` succeeds exactly on the lax strptime format. -/
theorem parseDMY_isSome_iff (s : PyStr) : (parseDMY s).isSome = true ↔ specFormatLax s := by
  constructor
  · intro h
    unfold parseDMY at h
    cases hs : splitOnDash s with
    | nil => exact absurd hs (splitOnDash_ne_nil s)
    | cons a r =>
      rw [hs] at h
      match a, r with
      | p1, [p2, p3] =>
        by_cases hc : p1.all isDigitC = true ∧ p2.all isDigitC = true ∧ p3.all isDigitC = true
            ∧ (p1.length = 1 ∨ p1.length = 2) ∧ (p2.length = 1 ∨ p2.length = 2)
            ∧ p3.length = 4
            ∧ validDMY (natOfDigits p1) (natOfDigits p2) (natOfDigits p3) = true
            ∧ inNsBounds (natOfDigits p1) (natOfDigits p2) (natOfDigits p3) = true
        · refine ⟨p1, p2, p3, ?_, hc.1, hc.2.1, hc.2.2.1, hc.2.2.2.1, hc.2.2.2.2.1,
            hc.2.2.2.2.2.1, hc.2.2.2.2.2.2.1, hc.2.2.2.2.2.2.2⟩
          have := joinDash_splitOnDash s
          rw [hs] at this
          simpa [joinDash] using this.symm
        · simp only [if_neg hc, Option.isSome_none] at h
          exact absurd h (by simp)
      | p1, [] => simp at h
      | p1, [p2] => simp at h
      | p1, p2 :: p3 :: p4 :: r => simp at h
  · rintro ⟨p1, p2, p3, rfl, h1, h2, h3, l1, l2, l3, hv, hb⟩
    unfold parseDMY
    rw [splitOnDash_three p1 p2 p3 h1 h2 h3]
    simp [h1, h2, h3, l1, l2, l3, hv, hb]

theorem daysInMonth_le_31 (m y : Nat) : daysInMonth m y ≤ 31 := by
  unfold daysInMonth
  split
  · split <;> omega
  · split <;> omega

theorem natOfDigits_pad2 (n : Nat) (h : n ≤ 99) : natOfDigits (pad2 n) = n := by
  simp only [natOfDigits, pad2, List.foldl]
  omega

theorem natOfDigits_pad4 (n : Nat) (h : n ≤ 9999) : natOfDigits (pad4 n) = n := by
  simp only [natOfDigits, pad4, List.foldl]
  omega

theorem pad2_length (n : Nat) : (pad2 n).length = 2 := rfl

theorem pad4_length (n : Nat) : (pad4 n).length = 4 := rfl

theorem pad2_all_digits (n : Nat) (h : n ≤ 99) : (pad2 n).all isDigitC = true := by
  simp only [pad2, List.all_cons, List.all_nil, Bool.and_true, Bool.and_eq_true,
    isDigitC, decide_eq_true_eq]
  omega

theorem pad4_all_digits (n : Nat) (h : n ≤ 9999) : (pad4 n).all isDigitC = true := by
  simp only [pad4, List.all_cons, List.all_nil, Bool.and_true, Bool.and_eq_true,
    isDigitC, decide_eq_true_eq]
  omega

/-- Round trip: every valid in-range calendar date written as `DD-MM-YYYY` parses back
to the same date. -/
theorem parseDMY_fmtDDMMYYYY (d m y : Nat) (hv : validDMY d m y = true)
    (hb : inNsBounds d m y = true) : parseDMY (fmtDDMMYYYY d m y) = some (d, m, y) := by
  have hdm := daysInMonth_le_31 m y
  simp only [validDMY, Bool.and_eq_true, decide_eq_true_eq] at hv
  have hb' := hb
  simp only [inNsBounds, dateKey, Bool.and_eq_true, decide_eq_true_eq] at hb'
  have hd : d ≤ 99 := by omega
  have hm : m ≤ 99 := by omega
  have hy : y ≤ 9999 := by omega
  have e1 : natOfDigits (pad2 d) = d := natOfDigits_pad2 d hd
  have e2 : natOfDigits (pad2 m) = m := natOfDigits_pad2 m hm
  have e3 : natOfDigits (pad4 y) = y := natOfDigits_pad4 y hy
  have hv' : validDMY d m y = true := by
    simp only [validDMY, Bool.and_eq_true, decide_eq_true_eq]
    exact hv
  unfold parseDMY fmtDDMMYYYY
  rw [splitOnDash_three _ _ _ (pad2_all_digits d hd) (pad2_all_digits m hm)
    (pad4_all_digits y hy)]
  simp [e1, e2, e3, hv', hb, pad2_all_digits d hd, pad2_all_digits m hm,
    pad4_all_digits y hy, pad2_length, pad4_length]

/-! ### State-name normalization lemmas -/

theorem isAlphaC_pyLowerC (c : Nat) : isAlphaC (pyLowerC c) = isAlphaC c := by
  rw [Bool.eq_iff_iff]
  simp only [isAlphaC, pyLowerC, Bool.or_eq_true, Bool.and_eq_true, decide_eq_true_eq]
  split <;> omega

theorem pyLowerC_pyLowerC (c : Nat) : pyLowerC (pyLowerC c) = pyLowerC c := by
  simp only [pyLowerC]
  split_ifs <;> omega

theorem pyUpperC_pyLowerC (c : Nat) : pyUpperC (pyLowerC c) = pyUpperC c := by
  simp only [pyUpperC, pyLowerC]
  split_ifs <;> omega

theorem pyLowerC_pyUpperC (c : Nat) : pyLowerC (pyUpperC c) = pyLowerC c := by
  simp only [pyUpperC, pyLowerC]
  split_ifs <;> omega

theorem pyLowerC_of_not_alpha {c : Nat} (h : isAlphaC c = false) : pyLowerC c = c := by
  simp only [isAlphaC, Bool.or_eq_false_iff, Bool.and_eq_false_iff,
    decide_eq_false_iff_not] at h
  simp only [pyLowerC]
  split <;> omega

theorem isSpaceC_pyLowerC (c : Nat) : isSpaceC (pyLowerC c) = isSpaceC c := by
  rw [Bool.eq_iff_iff]
  simp only [isSpaceC, pyLowerC, Bool.or_eq_true, beq_iff_eq]
  split <;> omega

/-- `str.title` is insensitive to the input casing. -/
theorem pyTitleAux_pyLower (s : PyStr) : ∀ b, pyTitleAux b (pyLower s) = pyTitleAux b s := by
  induction s with
  | nil => intro b; rfl
  | cons c cs ih =>
    intro b
    simp only [pyLower, List.map_cons, pyTitleAux, isAlphaC_pyLowerC]
    have ih' : pyTitleAux (isAlphaC c) (List.map pyLowerC cs) = pyTitleAux (isAlphaC c) cs :=
      ih (isAlphaC c)
    by_cases h : isAlphaC c = true
    · rw [h] at ih'
      simp [h, pyLowerC_pyLowerC, pyUpperC_pyLowerC, ih']
    · simp only [Bool.not_eq_true] at h
      rw [h] at ih'
      simp [h, pyLowerC_of_not_alpha h, ih']

theorem pyTitle_pyLower (s : PyStr) : pyTitle (pyLower s) = pyTitle s :=
  pyTitleAux_pyLower s false

/-- Lowercasing erases the effect of `str.title`. -/
theorem pyLower_pyTitleAux (s : PyStr) : ∀ b, pyLower (pyTitleAux b s) = pyLower s := by
  induction s with
  | nil => intro b; rfl
  | cons c cs ih =>
    intro b
    have ihc := ih (isAlphaC c)
    simp only [pyLower] at ihc
    have hhead : pyLowerC (if isAlphaC c then (if b then pyLowerC c else pyUpperC c) else c)
        = pyLowerC c := by
      by_cases h : isAlphaC c = true
      · simp only [h, if_true]
        cases b
        · simpa using pyLowerC_pyUpperC c
        · simpa using pyLowerC_pyLowerC c
      · simp only [Bool.not_eq_true] at h
        simp [h]
    simp only [pyTitleAux, pyLower, List.map_cons]
    rw [hhead, ihc]

theorem pyLower_pyTitle (s : PyStr) : pyLower (pyTitle s) = pyLower s :=
  pyLower_pyTitleAux s false

theorem dropWhile_map_aux (f : Nat → Nat) (p : Nat → Bool) (h : ∀ c, p (f c) = p c)
    (l : PyStr) : (l.map f).dropWhile p = (l.dropWhile p).map f := by
  induction l with
  | nil => rfl
  | cons c t ih =>
    simp only [List.map_cons, List.dropWhile_cons, h c]
    by_cases hc : p c = true
    · simp [hc, ih]
    · simp only [Bool.not_eq_true] at hc
      simp [hc]

theorem reverse_map_aux (f : Nat → Nat) (l : PyStr) :
    (l.map f).reverse = l.reverse.map f := by
  induction l with
  | nil => rfl
  | cons c t ih =>
    simp only [List.map_cons, List.reverse_cons, List.map_append, ih, List.map_nil]

/-- `str.strip` commutes with `str.lower`. -/
theorem pyStrip_pyLower (s : PyStr) : pyStrip (pyLower s) = pyLower (pyStrip s) := by
  simp only [pyStrip, pyLower]
  rw [dropWhile_map_aux _ _ isSpaceC_pyLowerC, reverse_map_aux,
    dropWhile_map_aux _ _ isSpaceC_pyLowerC, reverse_map_aux]

theorem title_eq_of_lower_eq {a b : PyStr} (h : pyLower a = pyLower b) :
    pyTitle a = pyTitle b := by
  rw [← pyTitle_pyLower a, ← pyTitle_pyLower b, h]

/-- The alias key whose canonical value `str.title` later mutilates. -/
def dadraKey1 : PyStr := strLit "Dadra And Nagar Haveli And Daman And Diu"

/-- The second alias key with the same canonical value. -/
def dadraKey2 : PyStr := strLit "The Dadra And Nagar Haveli And Daman And Diu"

theorem mapLookup_not_key (t : List (PyStr × PyStr)) (s : PyStr)
    (h : ∀ p ∈ t, p.1 ≠ s) : mapLookup t s = s := by
  unfold mapLookup
  have : t.find? (fun p => p.1 == s) = none :=
    List.find?_eq_none.mpr (fun p hp => by simpa using h p hp)
  rw [this]

theorem mapLookup_found {t : List (PyStr × PyStr)} {s : PyStr} {p : PyStr × PyStr}
    (h : t.find? (fun q => q.1 == s) = some p) : p ∈ t ∧ p.1 = s := by
  refine ⟨List.mem_of_find?_eq_some h, ?_⟩
  have := List.find?_some h
  simpa using this

theorem map_keys_stripped : ∀ p ∈ STATE_NAME_MAP, pyStrip p.1 = p.1 := by decide

theorem map_title_keys :
    ∀ p ∈ STATE_NAME_MAP, mapLookup STATE_NAME_MAP (pyTitle p.1) = p.2 := by decide

theorem map_title_values :
    ∀ p ∈ STATE_NAME_MAP, ∀ q ∈ STATE_NAME_MAP, pyLower p.1 = pyLower q.1 →
      p.1 ≠ dadraKey1 → p.1 ≠ dadraKey2 →
      mapLookup STATE_NAME_MAP (pyTitle p.2) = q.2 := by decide

/-- Any casing variant of an alias key normalizes to the key's canonical value,
except when the stripped input is one of the two long Dadra aliases. -/
theorem normalizeStateName_of_lower_key (s k c : PyStr) (hkc : (k, c) ∈ STATE_NAME_MAP)
    (hlow : pyLower s = pyLower k) (h1 : pyStrip s ≠ dadraKey1) (h2 : pyStrip s ≠ dadraKey2) :
    normalizeStateName s = c := by
  have hkstrip : pyStrip k = k := map_keys_stripped (k, c) hkc
  have hls : pyLower (pyStrip s) = pyLower k := by
    calc pyLower (pyStrip s) = pyStrip (pyLower s) := (pyStrip_pyLower s).symm
      _ = pyStrip (pyLower k) := by rw [hlow]
      _ = pyLower (pyStrip k) := pyStrip_pyLower k
      _ = pyLower k := by rw [hkstrip]
  unfold normalizeStateName
  cases hf : STATE_NAME_MAP.find? (fun p => p.1 == pyStrip s) with
  | none =>
    have hid : mapLookup STATE_NAME_MAP (pyStrip s) = pyStrip s := by
      unfold mapLookup; rw [hf]
    rw [hid, title_eq_of_lower_eq hls]
    exact map_title_keys (k, c) hkc
  | some p =>
    obtain ⟨hmem, hfst⟩ := mapLookup_found hf
    have hval : mapLookup STATE_NAME_MAP (pyStrip s) = p.2 := by
      unfold mapLookup; rw [hf]
    rw [hval]
    refine map_title_values p hmem (k, c) hkc ?_ ?_ ?_
    · rw [hfst]; exact hls
    · rw [hfst]; exact h1
    · rw [hfst]; exact h2

/-- Inputs with no casing variant in the alias table are just stripped and title-cased. -/
theorem normalizeStateName_of_unknown (s : PyStr)
    (h : ∀ p ∈ STATE_NAME_MAP, pyLower (pyStrip s) ≠ pyLower p.1) :
    normalizeStateName s = pyTitle (pyStrip s) := by
  have h1 : mapLookup STATE_NAME_MAP (pyStrip s) = pyStrip s := by
    apply mapLookup_not_key
    intro p hp heq
    exact h p hp (by rw [heq])
  have h2 : mapLookup STATE_NAME_MAP (pyTitle (pyStrip s)) = pyTitle (pyStrip s) := by
    apply mapLookup_not_key
    intro p hp heq
    exact h p hp (by rw [heq, pyLower_pyTitle])
  unfold normalizeStateName
  rw [h1, h2]

/-! ### Dataframe model

A pandas dataframe is a header of column names plus rows of cells, positionally
aligned with the header.  `NaN`/`NaT` is `Val.vNull`; numbers are rationals. -/

/-- A cell of a dataframe. -/
inductive Val where
  | vNull : Val
  | vStr : PyStr → Val
  | vNum : ℚ → Val
  | vDate : Nat → Nat → Nat → Val
  | vBool : Bool → Val
deriving DecidableEq

/-- A dataframe. -/
structure Df where
  header : List PyStr
  rows : List (List Val)
deriving DecidableEq

/-- Errors raised by pandas column access. -/
inductive PdErr where
  | keyError : PyStr → PdErr
deriving DecidableEq

deriving instance DecidableEq for Except

/-- Every row has exactly one cell per header entry. -/
def Df.Uniform (df : Df) : Prop := ∀ r ∈ df.rows, r.length = df.header.length

instance (df : Df) : Decidable df.Uniform := by
  unfold Df.Uniform
  infer_instance

/-- Index of the first column with the given name. -/
def colIdx : List PyStr → PyStr → Option Nat
  | [], _ => none
  | h :: t, n => if h = n then some 0 else (colIdx t n).map Nat.succ

/-- Read a cell of a row at an optional column index. -/
def cellAt (r : List Val) : Option Nat → Val
  | some i => r.getD i Val.vNull
  | none => Val.vNull

/-- Read the cell of row `r` in the column named `n` of `df`. -/
def cellOf (df : Df) (n : PyStr) (r : List Val) : Val := cellAt r (colIdx df.header n)

/-- Header after assigning column `n`: unchanged if present, appended otherwise. -/
def updHeader (h : List PyStr) (n : PyStr) : List PyStr :=
  match colIdx h n with
  | some _ => h
  | none => h ++ [n]

/-- One row after assigning column `n` to `f row`. -/
def updRow (h : List PyStr) (n : PyStr) (f : List Val → Val) (r : List Val) : List Val :=
  match colIdx h n with
  | some i => r.set i (f r)
  | none => r ++ [f r]

/-- `df[n] = f(row)`: pandas column assignment, overwriting or appending. -/
def updCol (df : Df) (n : PyStr) (f : List Val → Val) : Df :=
  ⟨updHeader df.header n, df.rows.map (updRow df.header n f)⟩

/-- Row filtering by a boolean mask computed per row. -/
def filterRows (df : Df) (p : List Val → Bool) : Df :=
  ⟨df.header, df.rows.filter p⟩

/-- Render of a nonnegative integer, digit by digit. -/
def natStr (n : Nat) : PyStr := (Nat.toDigits 10 n).map Char.toNat

/-- Render of an integer. -/
def intStr (i : Int) : PyStr := if i < 0 then 45 :: natStr i.natAbs else natStr i.natAbs

/-- Render of a rational (exact; integral values render like Python ints). -/
def ratStr (q : ℚ) : PyStr :=
  if q.den = 1 then intStr q.num else intStr q.num ++ 47 :: natStr q.den

/-- pandas `astype(str)` on one cell (`NaN` renders as `'nan'`). -/
def astypeStr : Val → PyStr
  | Val.vNull => strLit "nan"
  | Val.vStr s => s
  | Val.vNum q => ratStr q
  | Val.vDate d m y => pad4 y ++ (45 :: (pad2 m ++ (45 :: pad2 d)))
  | Val.vBool true => strLit "True"
  | Val.vBool false => strLit "False"

example : astypeStr (Val.vNum 110001) = strLit "110001" := by decide
example : astypeStr Val.vNull = strLit "nan" := by decide

example : colIdx [strLit "a", strLit "b"] (strLit "b") = some 1 := by decide

/-! ### Core dataframe lemmas -/

theorem getD_set_ne {l : List Val} {i j : Nat} (hij : i ≠ j) (a d : Val) :
    (l.set i a).getD j d = l.getD j d := by
  induction l generalizing i j with
  | nil => simp
  | cons x t ih =>
    cases i with
    | zero =>
      cases j with
      | zero => exact absurd rfl hij
      | succ j => simp [List.set, List.getD]
    | succ i =>
      cases j with
      | zero => simp [List.set, List.getD]
      | succ j =>
        simp only [List.set, List.getD_cons_succ]
        exact ih (fun h => hij (by rw [h]))

theorem getD_set_self {l : List Val} {i : Nat} (hi : i < l.length) (a d : Val) :
    (l.set i a).getD i d = a := by
  induction l generalizing i with
  | nil => simp at hi
  | cons x t ih =>
    cases i with
    | zero => simp [List.set]
    | succ i =>
      simp only [List.set, List.getD_cons_succ]
      exact ih (by simpa using hi)

theorem getD_append_left {l l' : List Val} {j : Nat} (hj : j < l.length) (d : Val) :
    (l ++ l').getD j d = l.getD j d := by
  induction l generalizing j with
  | nil => simp at hj
  | cons x t ih =>
    cases j with
    | zero => simp
    | succ j =>
      simp only [List.cons_append, List.getD_cons_succ]
      exact ih (by simpa using hj)

theorem getD_append_self {l : List Val} (a d : Val) :
    (l ++ [a]).getD l.length d = a := by
  induction l with
  | nil => simp
  | cons x t ih => simp [ih]

theorem colIdx_eq_none {h : List PyStr} {n : PyStr} (hn : n ∉ h) : colIdx h n = none := by
  induction h with
  | nil => rfl
  | cons a t ih =>
    simp only [colIdx]
    rw [if_neg (fun he => hn (by rw [← he]; exact List.mem_cons_self a t)),
      ih (fun hm => hn (List.mem_cons_of_mem a hm))]
    rfl

theorem colIdx_get {h : List PyStr} {n : PyStr} {i : Nat} (hc : colIdx h n = some i) :
    h.get? i = some n := by
  induction h generalizing i with
  | nil => simp [colIdx] at hc
  | cons a t ih =>
    simp only [colIdx] at hc
    by_cases he : a = n
    · rw [if_pos he] at hc
      cases hc
      rw [List.get?_cons_zero, he]
    · rw [if_neg he] at hc
      cases hi : colIdx t n with
      | none => rw [hi] at hc; simp at hc
      | some j =>
        rw [hi] at hc
        have hc' : Nat.succ j = i := Option.some.inj hc
        rw [← hc', List.get?_cons_succ]
        exact ih hi

theorem colIdx_lt {h : List PyStr} {n : PyStr} {i : Nat} (hc : colIdx h n = some i) :
    i < h.length := by
  have := colIdx_get hc
  exact List.get?_eq_some.mp this |>.choose

theorem colIdx_mem {h : List PyStr} {n : PyStr} {i : Nat} (hc : colIdx h n = some i) :
    n ∈ h :=
  List.get?_mem (colIdx_get hc)

theorem colIdx_append_ne {h : List PyStr} {n m : PyStr} (hmn : m ≠ n) :
    colIdx (h ++ [n]) m = colIdx h m := by
  induction h with
  | nil =>
    simp only [List.nil_append, colIdx, if_neg (Ne.symm hmn)]
    rfl
  | cons a t ih =>
    simp only [List.cons_append, colIdx, List.append_eq, ih]

theorem colIdx_append_self {h : List PyStr} {n : PyStr} (hc : colIdx h n = none) :
    colIdx (h ++ [n]) n = some h.length := by
  induction h with
  | nil => simp [colIdx]
  | cons a t ih =>
    simp only [colIdx] at hc ⊢
    by_cases he : a = n
    · rw [if_pos he] at hc; simp at hc
    · rw [if_neg he] at hc ⊢
      cases hi : colIdx t n with
      | none =>
        simp only [List.append_eq] at ih ⊢
        rw [ih hi]
        simp
      | some j => rw [hi] at hc; simp at hc

theorem cellAt_updRow_ne {h : List PyStr} {n m : PyStr} {f : List Val → Val}
    {r : List Val} (hmn : m ≠ n) (hr : r.length = h.length) :
    cellAt (updRow h n f r) (colIdx (updHeader h n) m) = cellAt r (colIdx h m) := by
  unfold updRow updHeader
  cases hc : colIdx h n with
  | some i =>
    cases hm : colIdx h m with
    | none => rfl
    | some j =>
      have hij : i ≠ j := by
        intro he
        have h1 := colIdx_get hc
        have h2 := colIdx_get hm
        rw [he, h2] at h1
        exact hmn (Option.some.inj h1)
      simp only [cellAt]
      exact getD_set_ne hij _ _
  | none =>
    rw [colIdx_append_ne hmn]
    cases hm : colIdx h m with
    | none => rfl
    | some j =>
      have hj : j < r.length := by rw [hr]; exact colIdx_lt hm
      simp only [cellAt]
      exact getD_append_left hj _

theorem cellAt_updRow_self {h : List PyStr} {n : PyStr} {f : List Val → Val}
    {r : List Val} (hr : r.length = h.length) :
    cellAt (updRow h n f r) (colIdx (updHeader h n) n) = f r := by
  unfold updRow updHeader
  cases hc : colIdx h n with
  | some i =>
    rw [hc]
    have hi : i < r.length := by rw [hr]; exact colIdx_lt hc
    simp only [cellAt]
    exact getD_set_self hi _ _
  | none =>
    rw [colIdx_append_self hc]
    simp only [cellAt]
    rw [← hr]
    exact getD_append_self _ _

theorem updRow_length {h : List PyStr} {n : PyStr} {f : List Val → Val} {r : List Val}
    (hr : r.length = h.length) :
    (updRow h n f r).length = (updHeader h n).length := by
  unfold updRow updHeader
  cases hc : colIdx h n with
  | some i => simpa using hr
  | none => simp [hr]

theorem uniform_updCol {df : Df} {n : PyStr} {f : List Val → Val} (hu : df.Uniform) :
    (updCol df n f).Uniform := by
  intro r' hr'
  simp only [updCol, List.mem_map] at hr'
  obtain ⟨r, hr, rfl⟩ := hr'
  exact updRow_length (hu r hr)

theorem uniform_filterRows {df : Df} {p : List Val → Bool} (hu : df.Uniform) :
    (filterRows df p).Uniform := by
  intro r hr
  exact hu r (List.mem_of_mem_filter hr)

/-- Every cell of column `n` satisfies `P`. -/
def ColAll (df : Df) (n : PyStr) (P : Val → Prop) : Prop :=
  ∀ r ∈ df.rows, P (cellOf df n r)

theorem colAll_filterRows {df : Df} {p : List Val → Bool} {n : PyStr} {P : Val → Prop}
    (h : ColAll df n P) : ColAll (filterRows df p) n P := by
  intro r hr
  exact h r (List.mem_of_mem_filter hr)

theorem colAll_updCol_ne {df : Df} {n m : PyStr} {f : List Val → Val} {P : Val → Prop}
    (hmn : m ≠ n) (hu : df.Uniform) (h : ColAll df m P) : ColAll (updCol df n f) m P := by
  intro r' hr'
  simp only [updCol, List.mem_map] at hr'
  obtain ⟨r, hr, rfl⟩ := hr'
  unfold cellOf
  show P (cellAt (updRow df.header n f r) (colIdx (updHeader df.header n) m))
  rw [cellAt_updRow_ne hmn (hu r hr)]
  exact h r hr

theorem colAll_updCol_self {df : Df} {n : PyStr} {f : List Val → Val} {P : Val → Prop}
    (hu : df.Uniform) (h : ∀ r ∈ df.rows, P (f r)) : ColAll (updCol df n f) n P := by
  intro r' hr'
  simp only [updCol, List.mem_map] at hr'
  obtain ⟨r, hr, rfl⟩ := hr'
  unfold cellOf
  show P (cellAt (updRow df.header n f r) (colIdx (updHeader df.header n) n))
  rw [cellAt_updRow_self (hu r hr)]
  exact h r hr

theorem colAll_filterRows_establish {df : Df} {n : PyStr} {P : Val → Prop}
    {pred : List Val → Bool} (h : ∀ r ∈ df.rows, pred r = true → P (cellOf df n r)) :
    ColAll (filterRows df pred) n P := by
  intro r hr
  have hr' : r ∈ df.rows.filter pred := hr
  rw [List.mem_filter] at hr'
  exact h r hr'.1 hr'.2

theorem mem_header_updCol {df : Df} {n : PyStr} {f : List Val → Val} {m : PyStr}
    (h : m ∈ df.header) : m ∈ (updCol df n f).header := by
  simp only [updCol, updHeader]
  cases colIdx df.header n <;> simp [h]

theorem mem_header_updCol_inv {df : Df} {n : PyStr} {f : List Val → Val} {m : PyStr}
    (h : m ∈ (updCol df n f).header) : m ∈ df.header ∨ m = n := by
  simp only [updCol, updHeader] at h
  cases hc : colIdx df.header n with
  | some i => rw [hc] at h; exact Or.inl h
  | none =>
    rw [hc] at h
    rcases List.mem_append.mp h with h1 | h1
    · exact Or.inl h1
    · exact Or.inr (by simpa using h1)

theorem colIdx_isSome_of_mem {h : List PyStr} {n : PyStr} (hn : n ∈ h) :
    (colIdx h n).isSome = true := by
  cases hc : colIdx h n with
  | none =>
    induction h with
    | nil => simp at hn
    | cons a t ih =>
      simp only [colIdx] at hc
      by_cases he : a = n
      · rw [if_pos he] at hc; simp at hc
      · rw [if_neg he] at hc
        rcases List.mem_cons.mp hn with h1 | h1
        · exact absurd h1.symm he
        · cases hi : colIdx t n with
          | none => exact ih h1 hi
          | some j => rw [hi] at hc; simp at hc
  | some i => rfl

theorem cellOf_eq_cellAt {df : Df} {n : PyStr} {i : Nat}
    (hc : colIdx df.header n = some i) (r : List Val) : cellOf df n r = cellAt r (some i) := by
  unfold cellOf
  rw [hc]

theorem updCol_header_of_some {df : Df} {n : PyStr} {f : List Val → Val} {i : Nat}
    (hc : colIdx df.header n = some i) : (updCol df n f).header = df.header := by
  simp [updCol, updHeader, hc]

/-! ### Preprocessing stages (`src/preprocessing.py`) -/

/-- `pd.to_datetime(..., format='%d-%m-%Y', errors='coerce')` on one cell. -/
def parseCell : Val → Val
  | Val.vStr s =>
    match parseDMY s with
    | some (d, m, y) => Val.vDate d m y
    | none => Val.vNull
  | Val.vDate d m y => Val.vDate d m y
  | _ => Val.vNull

/-- `parse_dates`: convert the date column, coercing failures to null. -/
def parse_dates (df : Df) (dateCol : PyStr := strLit "date") : Except PdErr Df :=
  match colIdx df.header dateCol with
  | none => .error (.keyError dateCol)
  | some i => .ok (updCol df dateCol (fun r => parseCell (cellAt r (some i))))

/-- `validate_pincode`: coerce to string, strip, keep only rows matching `^\d{6}$`. -/
def validate_pincode (df : Df) (pc : PyStr := strLit "pincode") : Except PdErr Df :=
  match colIdx df.header pc with
  | none => .error (.keyError pc)
  | some i =>
    let df1 := updCol df pc (fun r => Val.vStr (pyStrip (astypeStr (cellAt r (some i)))))
    .ok (filterRows df1 (fun r =>
      match cellAt r (some i) with
      | Val.vStr s => isSixDigit s
      | _ => false))

/-- `Series.replace(STATE_NAME_MAP)` on one cell. -/
def replCell : Val → Val
  | Val.vStr s => Val.vStr (mapLookup STATE_NAME_MAP s)
  | v => v

/-- `Series.str.title()` on one cell. -/
def titleCell : Val → Val
  | Val.vStr s => Val.vStr (pyTitle s)
  | v => v

/-- `normalize_state_names`: drop purely numeric states, strip, alias lookup,
title-case, alias lookup again. -/
def normalize_state_names (df : Df) (sc : PyStr := strLit "state") : Except PdErr Df :=
  match colIdx df.header sc with
  | none => .error (.keyError sc)
  | some i =>
    let df1 := filterRows df (fun r => !(isNumericStr (astypeStr (cellAt r (some i)))))
    let df2 := updCol df1 sc (fun r => Val.vStr (pyStrip (astypeStr (cellAt r (some i)))))
    let df3 := updCol df2 sc (fun r => replCell (cellAt r (some i)))
    let df4 := updCol df3 sc (fun r => titleCell (cellAt r (some i)))
    .ok (updCol df4 sc (fun r => replCell (cellAt r (some i))))

/-- Days in all years before year `y` (proleptic Gregorian). -/
def daysBeforeYear (y : Nat) : Nat :=
  365 * (y - 1) + (y - 1) / 4 - (y - 1) / 100 + (y - 1) / 400

/-- Ordinal day within the year. -/
def dayOfYear (d m y : Nat) : Nat :=
  (List.range (m - 1)).foldl (fun a i => a + daysInMonth (i + 1) y) 0 + d

/-- Days since 31 Dec of year 0; day 1 is 0001-01-01, a Monday. -/
def dayNumber (d m y : Nat) : Nat := daysBeforeYear y + dayOfYear d m y

/-- pandas `dt.dayofweek`: Monday = 0 .. Sunday = 6. -/
def dayOfWeekMon (d m y : Nat) : Nat := (dayNumber d m y + 6) % 7

/-- pandas `dt.month_name()`. -/
def monthName (m : Nat) : PyStr :=
  [strLit "January", strLit "February", strLit "March", strLit "April",
    strLit "May", strLit "June", strLit "July", strLit "August",
    strLit "September", strLit "October", strLit "November",
    strLit "December"].getD (m - 1) (strLit "")

/-- Number of ISO weeks in a year (52, or 53 when 1 Jan is a Thursday, or a
Wednesday in a leap year). -/
def isoWeeksInYear (y : Nat) : Nat :=
  let w := dayOfWeekMon 1 1 y
  if w = 3 ∨ (isLeap y = true ∧ w = 2) then 53 else 52

/-- ISO-8601 week number, as `dt.isocalendar().week`. -/
def isoWeek (d m y : Nat) : Nat :=
  let w := (dayOfYear d m y + 10 - (dayOfWeekMon d m y + 1)) / 7
  if w = 0 then isoWeeksInYear (y - 1)
  else if w = 53 ∧ isoWeeksInYear y = 52 then 1 else w

/-- `add_temporal_features`: year, month, quarter, day-of-week, month name, ISO week. -/
def add_temporal_features (df : Df) (dc : PyStr := strLit "date") : Except PdErr Df :=
  match colIdx df.header dc with
  | none => .error (.keyError dc)
  | some i =>
    let df1 := updCol df (strLit "year") (fun r =>
      match cellAt r (some i) with
      | Val.vDate _ _ y => Val.vNum y
      | _ => Val.vNull)
    let df2 := updCol df1 (strLit "month") (fun r =>
      match cellAt r (some i) with
      | Val.vDate _ m _ => Val.vNum m
      | _ => Val.vNull)
    let df3 := updCol df2 (strLit "quarter") (fun r =>
      match cellAt r (some i) with
      | Val.vDate _ m _ => Val.vNum ((m - 1) / 3 + 1 : Nat)
      | _ => Val.vNull)
    let df4 := updCol df3 (strLit "day_of_week") (fun r =>
      match cellAt r (some i) with
      | Val.vDate d m y => Val.vNum (dayOfWeekMon d m y)
      | _ => Val.vNull)
    let df5 := updCol df4 (strLit "month_name") (fun r =>
      match cellAt r (some i) with
      | Val.vDate _ m _ => Val.vStr (monthName m)
      | _ => Val.vNull)
    .ok (updCol df5 (strLit "week") (fun r =>
      match cellAt r (some i) with
      | Val.vDate d m y => Val.vNum (isoWeek d m y)
      | _ => Val.vNull))

/-- Numeric value of a cell with `NaN` (and anything non-numeric) as 0,
the `skipna` of `DataFrame.sum(axis=1)`. -/
def numOrZero : Val → ℚ
  | Val.vNum q => q
  | _ => 0

/-- The required geography/date columns of `remove_invalid_records`. -/
def requiredCols : List PyStr :=
  [strLit "date", strLit "state", strLit "district", strLit "pincode"]

/-- `remove_invalid_records`: drop rows with a null in any required column
that is present in the schema. -/
def remove_invalid_records (df : Df) : Df :=
  let existing := requiredCols.filter (fun c => (colIdx df.header c).isSome)
  filterRows df (fun r => existing.all (fun c => !(cellOf df c r == Val.vNull)))

/-- The age-bracket columns of the enrolment dataset. -/
def ageCols : List PyStr := [strLit "age_0_5", strLit "age_5_17", strLit "age_18_greater"]

/-- `add_enrolment_totals`: sum of the age brackets, silently skipped if any
age column is missing. -/
def add_enrolment_totals (df : Df) : Df :=
  if ageCols.all (fun c => (colIdx df.header c).isSome) then
    updCol df (strLit "total_enrolments")
      (fun r => Val.vNum (ageCols.foldl (fun a c => a + numOrZero (cellOf df c r)) 0))
  else df

/-- `add_update_totals`: sum of all columns carrying the dataset's name stem,
silently skipped if there are none. -/
def add_update_totals (df : Df) (pref : PyStr) : Df :=
  let updateCols := df.header.filter (fun c => pref.isPrefixOf c)
  if updateCols.isEmpty then df
  else
    updCol df (strLit "total_updates")
      (fun r => Val.vNum (updateCols.foldl (fun a c => a + numOrZero (cellOf df c r)) 0))

/-! ### Analysis stages (`src/analysis.py`) -/

/-- Sorted insertion for rationals. -/
def insertSortedQ (x : ℚ) : List ℚ → List ℚ
  | [] => [x]
  | y :: t => if x ≤ y then x :: y :: t else y :: insertSortedQ x t

/-- Ascending sort of a list of rationals. -/
def sortQ (l : List ℚ) : List ℚ := l.foldr insertSortedQ []

/-- `Series.quantile(q)` with linear interpolation between order statistics;
`none` on an empty (all-null) series. -/
def quantileLin (xs : List ℚ) (q : ℚ) : Option ℚ :=
  match xs with
  | [] => none
  | _ =>
    let n := xs.length - 1
    let sorted := sortQ xs
    let pos : ℚ := q * (n : ℚ)
    let i : Nat := pos.floor.toNat
    let lo := sorted.getD i 0
    let hi := sorted.getD (min (i + 1) n) 0
    some (lo + (hi - lo) * (pos - (i : ℚ)))

/-- Numeric cell content; `none` for null and non-numeric cells (skipped by
pandas `quantile` and by the NaN-propagating comparisons). -/
def toNum? : Val → Option ℚ
  | Val.vNum q => some q
  | _ => none

/-- The non-null numeric entries of column `i`, as read by `quantile`. -/
def iqrNums (df : Df) (i : Nat) : List ℚ :=
  df.rows.filterMap (fun r => toNum? (cellAt r (some i)))

/-- `[Q1 - m*IQR, Q3 + m*IQR]`; `none` when the column has no numeric entries. -/
def iqrBounds (df : Df) (i : Nat) (mult : ℚ) : Option (ℚ × ℚ) :=
  match quantileLin (iqrNums df i) (1 / 4), quantileLin (iqrNums df i) (3 / 4) with
  | some a, some b => some (a - mult * (b - a), b + mult * (b - a))
  | _, _ => none

/-- `value < lower_bound`; false for null cells (NaN comparison) and undefined bounds. -/
def iqrLow (df : Df) (i : Nat) (mult : ℚ) (v : Val) : Bool :=
  match v, iqrBounds df i mult with
  | Val.vNum x, some p => decide (x < p.1)
  | _, _ => false

/-- `value > upper_bound`; false for null cells and undefined bounds. -/
def iqrHigh (df : Df) (i : Nat) (mult : ℚ) (v : Val) : Bool :=
  match v, iqrBounds df i mult with
  | Val.vNum x, some p => decide (p.2 < x)
  | _, _ => false

/-- The `anomaly_type` cell: nested `np.where(low, 'low', where(high, 'high', 'normal'))`. -/
def iqrType (df : Df) (i : Nat) (mult : ℚ) (v : Val) : Val :=
  Val.vStr (if iqrLow df i mult v then strLit "low"
    else if iqrHigh df i mult v then strLit "high" else strLit "normal")

/-- `detect_anomalies_iqr`: flag values outside `[Q1 - m*IQR, Q3 + m*IQR]`,
attaching `is_anomaly` and `anomaly_type` (`low`/`high`/`normal`). -/
def detect_anomalies_iqr (df : Df) (col : PyStr) (mult : ℚ) : Except PdErr Df :=
  match colIdx df.header col with
  | none => .error (.keyError col)
  | some i =>
    let df1 := updCol df (strLit "is_anomaly")
      (fun r => Val.vBool (iqrLow df i mult (cellAt r (some i))
        || iqrHigh df i mult (cellAt r (some i))))
    .ok (updCol df1 (strLit "anomaly_type") (fun r => iqrType df i mult (cellAt r (some i))))

/-- `fillna(0)` on one cell. -/
def fillNum : Val → ℚ
  | Val.vNum q => q
  | _ => 0

/-- The zero-filled numeric column fed to `stats.zscore`. -/
def zsXs (df : Df) (i : Nat) : List ℚ := df.rows.map (fun r => fillNum (cellAt r (some i)))

/-- Mean of the zero-filled column. -/
def zsMean (df : Df) (i : Nat) : ℚ := (zsXs df i).sum / ((zsXs df i).length : ℚ)

/-- Population variance of the zero-filled column. -/
def zsVar (df : Df) (i : Nat) : ℚ :=
  ((zsXs df i).map (fun x => (x - zsMean df i) ^ 2)).sum / ((zsXs df i).length : ℚ)

/-- The stored score cell.  The irrational absolute z-score `|x-mean|/σ` is
represented by its square `(x-mean)²/σ²`, and is null when the variance is zero
(numpy produces NaN from the zero division). -/
def zsCell (df : Df) (i : Nat) (x : ℚ) : Val :=
  if zsVar df i = 0 then Val.vNull else Val.vNum ((x - zsMean df i) ^ 2 / zsVar df i)

/-- `zscore > threshold` on the stored squared score: equivalent to `|z| > t`
for `t ≥ 0`, always true for a defined score when `t < 0`, and false on NaN,
exactly as the float comparison behaves. -/
def zsFlag (t : ℚ) : Val → Bool
  | Val.vNum q => if t < 0 then true else decide (t ^ 2 < q)
  | _ => false

/-- `detect_anomalies_zscore`: zero-fill nulls, score against the mean and
population standard deviation, flag scores exceeding the threshold. -/
def detect_anomalies_zscore (df : Df) (col : PyStr) (t : ℚ) : Except PdErr Df :=
  match colIdx df.header col with
  | none => .error (.keyError col)
  | some i =>
    let df1 := updCol df (strLit "zscore") (fun r => zsCell df i (fillNum (cellAt r (some i))))
    .ok (updCol df1 (strLit "is_anomaly")
      (fun r => Val.vBool (zsFlag t (cellAt r (colIdx df1.header (strLit "zscore"))))))

theorem detect_iqr_ok {df out : Df} {col : PyStr} {mult : ℚ}
    (h : detect_anomalies_iqr df col mult = .ok out) :
    ∃ i, colIdx df.header col = some i
      ∧ out = updCol (updCol df (strLit "is_anomaly")
          (fun r => Val.vBool (iqrLow df i mult (cellAt r (some i))
            || iqrHigh df i mult (cellAt r (some i)))))
          (strLit "anomaly_type") (fun r => iqrType df i mult (cellAt r (some i))) := by
  unfold detect_anomalies_iqr at h
  cases hc : colIdx df.header col with
  | none => rw [hc] at h; simp at h
  | some i => rw [hc] at h; exact ⟨i, rfl, (Except.ok.inj h).symm⟩

theorem detect_zscore_ok {df out : Df} {col : PyStr} {t : ℚ}
    (h : detect_anomalies_zscore df col t = .ok out) :
    ∃ i, colIdx df.header col = some i
      ∧ out = updCol (updCol df (strLit "zscore")
            (fun r => zsCell df i (fillNum (cellAt r (some i)))))
          (strLit "is_anomaly")
          (fun r => Val.vBool (zsFlag t (cellAt r
            (colIdx (updCol df (strLit "zscore")
              (fun r => zsCell df i (fillNum (cellAt r (some i))))).header
              (strLit "zscore"))))) := by
  unfold detect_anomalies_zscore at h
  cases hc : colIdx df.header col with
  | none => rw [hc] at h; simp at h
  | some i => rw [hc] at h; exact ⟨i, rfl, (Except.ok.inj h).symm⟩

theorem list_sum_const {l : List ℚ} {q : ℚ} (h : ∀ x ∈ l, x = q) :
    l.sum = q * (l.length : ℚ) := by
  induction l with
  | nil => simp
  | cons x t ih =>
    have hx : x = q := h x (by simp)
    have ht : t.sum = q * (t.length : ℚ) := ih (fun y hy => h y (by simp [hy]))
    simp only [List.sum_cons, ht, hx, List.length_cons]
    push_cast
    ring

theorem zsVar_const {df : Df} {i : Nat} {q : ℚ} (h : ∀ x ∈ zsXs df i, x = q) :
    zsVar df i = 0 := by
  unfold zsVar
  rcases List.eq_nil_or_concat (zsXs df i) with hnil | _
  · rw [hnil]
    simp
  · have hne : (zsXs df i).length ≠ 0 := by
      intro h0
      rw [List.length_eq_zero] at h0
      rename_i hcat
      obtain ⟨a, b, hab⟩ := hcat
      rw [h0] at hab
      exact absurd hab.symm (by simp)
    have hmean : zsMean df i = q := by
      unfold zsMean
      rw [list_sum_const h]
      rw [mul_div_assoc, div_self (by exact_mod_cast hne), mul_one]
    have hzero : ∀ x ∈ (zsXs df i).map (fun x => (x - zsMean df i) ^ 2), x = 0 := by
      intro x hx
      rw [List.mem_map] at hx
      obtain ⟨y, hy, rfl⟩ := hx
      rw [h y hy, hmean]
      ring
    rw [list_sum_const hzero]
    simp

/-- Rows of an `updCol` result, indexwise. -/
theorem updCol_rows_get? (df : Df) (n : PyStr) (f : List Val → Val) (k : Nat) :
    (updCol df n f).rows.get? k = (df.rows.get? k).map (updRow df.header n f) := by
  simp [updCol, List.get?_map]

theorem updCol_rows_length (df : Df) (n : PyStr) (f : List Val → Val) :
    (updCol df n f).rows.length = df.rows.length := by
  simp [updCol]

/-- A cell read by raw index is unchanged by assignment to a differently named column. -/
theorem cellAt_updRow_at_ne {h : List PyStr} {n : PyStr} {f : List Val → Val}
    {r : List Val} {i : Nat} (hne : h.get? i ≠ some n) (hr : r.length = h.length)
    (hi : i < h.length) :
    cellAt (updRow h n f r) (some i) = cellAt r (some i) := by
  unfold updRow
  cases hc : colIdx h n with
  | some j =>
    have hij : i ≠ j := by
      intro he
      exact hne (by rw [he]; exact colIdx_get hc)
    simp only [cellAt]
    exact getD_set_ne (Ne.symm hij) _ _
  | none =>
    simp only [cellAt]
    exact getD_append_left (by rw [hr]; exact hi) _

theorem detect_zscore_const_flags {df out : Df} {col : PyStr} {t q : ℚ}
    (hu : df.Uniform) (hconst : ∀ r ∈ df.rows, cellOf df col r = Val.vNum q)
    (h : detect_anomalies_zscore df col t = .ok out) :
    ColAll out (strLit "is_anomaly") (· = Val.vBool false) := by
  obtain ⟨i, hci, hout⟩ := detect_zscore_ok h
  have hxs : ∀ x ∈ zsXs df i, x = q := by
    intro x hx
    unfold zsXs at hx
    rw [List.mem_map] at hx
    obtain ⟨r, hr, rfl⟩ := hx
    have hcr := hconst r hr
    rw [cellOf_eq_cellAt hci] at hcr
    rw [hcr]
    rfl
  have hvar : zsVar df i = 0 := zsVar_const hxs
  rw [hout]
  have hu1 : (updCol df (strLit "zscore")
      (fun r => zsCell df i (fillNum (cellAt r (some i))))).Uniform := uniform_updCol hu
  have hz1 : ColAll (updCol df (strLit "zscore")
      (fun r => zsCell df i (fillNum (cellAt r (some i))))) (strLit "zscore")
      (· = Val.vNull) := by
    have hh : ∀ r ∈ df.rows, zsCell df i (fillNum (cellAt r (some i))) = Val.vNull := by
      intro r hr
      unfold zsCell
      rw [if_pos hvar]
    exact colAll_updCol_self hu hh
  have hh2 : ∀ r ∈ (updCol df (strLit "zscore")
      (fun r => zsCell df i (fillNum (cellAt r (some i))))).rows,
      Val.vBool (zsFlag t (cellAt r (colIdx (updCol df (strLit "zscore")
        (fun r => zsCell df i (fillNum (cellAt r (some i))))).header (strLit "zscore"))))
      = Val.vBool false := by
    intro r hr
    have hz := hz1 r hr
    unfold cellOf at hz
    rw [hz]
    rfl
  exact colAll_updCol_self hu1 hh2

theorem detect_zscore_empty {df : Df} {col : PyStr} {t : ℚ} (hmem : col ∈ df.header)
    (hrows : df.rows = []) :
    ∃ out, detect_anomalies_zscore df col t = .ok out ∧ out.rows = [] := by
  cases hc : colIdx df.header col with
  | none =>
    have := colIdx_isSome_of_mem hmem
    rw [hc] at this
    simp at this
  | some i =>
    refine ⟨_, by unfold detect_anomalies_zscore; rw [hc], ?_⟩
    simp [updCol, hrows]

theorem detect_iqr_empty {df : Df} {col : PyStr} {mult : ℚ} (hmem : col ∈ df.header)
    (hrows : df.rows = []) :
    ∃ out, detect_anomalies_iqr df col mult = .ok out ∧ out.rows = [] := by
  cases hc : colIdx df.header col with
  | none =>
    have := colIdx_isSome_of_mem hmem
    rw [hc] at this
    simp at this
  | some i =>
    refine ⟨_, by unfold detect_anomalies_iqr; rw [hc], ?_⟩
    simp [updCol, hrows]

/-- Lexicographic order on strings (the pandas groupby key order). -/
def lexLt : PyStr → PyStr → Bool
  | [], [] => false
  | [], _ :: _ => true
  | _ :: _, [] => false
  | a :: s, b :: t => if a < b then true else if b < a then false else lexLt s t

/-- Insert into a key-sorted running-sum association list. -/
def insGroup (k : PyStr) (v : Int) : List (PyStr × Int) → List (PyStr × Int)
  | [] => [(k, v)]
  | (k', v') :: t =>
    if k = k' then (k', v' + v) :: t
    else if lexLt k k' then (k, v) :: (k', v') :: t
    else (k', v') :: insGroup k v t

/-- `df.groupby(key)[col].sum()` over (key, value) pairs: one total per key. -/
def groupSum (l : List (PyStr × Int)) : List (PyStr × Int) :=
  l.foldl (fun acc p => insGroup p.1 p.2 acc) []

/-- Insertion into a list sorted descending by `key`. -/
def insertByDesc (key : α → Int) (x : α) : List α → List α
  | [] => [x]
  | y :: t => if key y ≤ key x then x :: y :: t else y :: insertByDesc key x t

/-- `sort_values(..., ascending=False)`. -/
def sortByDesc (key : α → Int) (l : List α) : List α := l.foldr (insertByDesc key) []

/-- A row of the `state_aggregations` result. -/
structure AggRow where
  state : PyStr
  total : Int
  rank : Nat
deriving DecidableEq

/-- `range(1, len+1)` rank assignment in list order. -/
def withRanks : Nat → List (PyStr × Int) → List AggRow
  | _, [] => []
  | i, p :: t => ⟨p.1, p.2, i⟩ :: withRanks (i + 1) t

/-- `state_aggregations` of `src/analysis.py` on the (state, value) projection:
group by state, sum, sort descending by total, assign positional ranks 1..n
(the derived percentage columns do not affect totals or ranks and are omitted). -/
def state_aggregations (l : List (PyStr × Int)) : List AggRow :=
  withRanks 1 (sortByDesc (fun p => p.2) (groupSum l))

/-- A row of the `comparative_state_metrics` result. -/
structure CompRow where
  state : PyStr
  enrolments : Int
  demoUpdates : Int
  bioUpdates : Int
  demoPerEnrol : Option ℚ
  bioPerEnrol : Option ℚ
  totalActivity : Int
deriving DecidableEq

/-- Merged-side lookup with `fillna(0)`. -/
def lookupD (l : List (PyStr × Int)) (k : PyStr) : Int :=
  match l.find? (fun p => p.1 == k) with
  | some p => p.2
  | none => 0

/-- `x / enrolments.replace(0, nan)`: null ratio on a zero denominator. -/
def ratioOrNull (x e : Int) : Option ℚ :=
  if e = 0 then none else some ((x : ℚ) / (e : ℚ))

/-- Key set of the two-step outer merge (left keys first, then unmatched ones). -/
def outerKeys (a b c : List (PyStr × Int)) : List PyStr :=
  let ka := a.map Prod.fst
  let kb := (b.map Prod.fst).filter (fun k => !(ka.contains k))
  let kc := (c.map Prod.fst).filter (fun k => !((ka ++ kb).contains k))
  ka ++ kb ++ kc

/-- `comparative_state_metrics` of `src/analysis.py` on per-state projections:
outer-join the three per-state sums, fill missing sides with zero, ratios with a
null on zero enrolments, sort by total activity descending. -/
def comparative_state_metrics (enrol demo bio : List (PyStr × Int)) : List CompRow :=
  let eg := groupSum enrol
  let dg := groupSum demo
  let bg := groupSum bio
  let rows := (outerKeys eg dg bg).map (fun s =>
    let e := lookupD eg s
    let d := lookupD dg s
    let b := lookupD bg s
    ⟨s, e, d, b, ratioOrNull d e, ratioOrNull b e, e + d + b⟩)
  sortByDesc (fun r => r.totalActivity) rows

theorem mem_insertByDesc {key : α → Int} {x y : α} {l : List α} :
    y ∈ insertByDesc key x l ↔ y = x ∨ y ∈ l := by
  induction l with
  | nil => simp [insertByDesc]
  | cons z t ih =>
    unfold insertByDesc
    by_cases hc : key z ≤ key x
    · rw [if_pos hc]
      simp
    · rw [if_neg hc]
      simp only [List.mem_cons, ih]
      tauto

theorem mem_sortByDesc {key : α → Int} {y : α} {l : List α} :
    y ∈ sortByDesc key l ↔ y ∈ l := by
  unfold sortByDesc
  induction l with
  | nil => simp
  | cons z t ih =>
    simp only [List.foldr_cons, mem_insertByDesc, ih, List.mem_cons]

theorem insertByDesc_pairwise {key : α → Int} {x : α} {l : List α}
    (hl : l.Pairwise (fun a b => key b ≤ key a)) :
    (insertByDesc key x l).Pairwise (fun a b => key b ≤ key a) := by
  induction l with
  | nil => simp [insertByDesc]
  | cons y t ih =>
    rw [List.pairwise_cons] at hl
    obtain ⟨hy, ht⟩ := hl
    unfold insertByDesc
    by_cases hc : key y ≤ key x
    · rw [if_pos hc, List.pairwise_cons]
      constructor
      · intro b hb
        rcases List.mem_cons.mp hb with rfl | hb
        · exact hc
        · exact le_trans (hy b hb) hc
      · exact List.pairwise_cons.mpr ⟨hy, ht⟩
    · rw [if_neg hc, List.pairwise_cons]
      constructor
      · intro b hb
        rcases mem_insertByDesc.mp hb with rfl | hb
        · exact le_of_not_le hc
        · exact hy b hb
      · exact ih ht

theorem sortByDesc_pairwise {key : α → Int} (l : List α) :
    (sortByDesc key l).Pairwise (fun a b => key b ≤ key a) := by
  unfold sortByDesc
  induction l with
  | nil => simp
  | cons z t ih => exact insertByDesc_pairwise ih

theorem withRanks_map_rank (l : List (PyStr × Int)) :
    ∀ i, (withRanks i l).map AggRow.rank = List.range' i l.length := by
  induction l with
  | nil => intro i; rfl
  | cons p t ih =>
    intro i
    simp only [withRanks, List.map_cons, List.length_cons, List.range', ih (i + 1)]

theorem withRanks_map_total (l : List (PyStr × Int)) :
    ∀ i, (withRanks i l).map AggRow.total = l.map Prod.snd := by
  induction l with
  | nil => intro i; rfl
  | cons p t ih =>
    intro i
    simp only [withRanks, List.map_cons, ih (i + 1)]

theorem withRanks_length (l : List (PyStr × Int)) :
    ∀ i, (withRanks i l).length = l.length := by
  induction l with
  | nil => intro i; rfl
  | cons p t ih =>
    intro i
    simp only [withRanks, List.length_cons, ih (i + 1)]

theorem insGroup_key_ne {s k : PyStr} {v : Int} {acc : List (PyStr × Int)}
    (hacc : ∀ p ∈ acc, p.1 ≠ s) (hk : k ≠ s) :
    ∀ p ∈ insGroup k v acc, p.1 ≠ s := by
  induction acc with
  | nil =>
    intro p hp
    simp only [insGroup, List.mem_singleton] at hp
    rw [hp]
    exact hk
  | cons q t ih =>
    intro p hp
    have hacct : ∀ r ∈ t, r.1 ≠ s := fun r hr => hacc r (List.mem_cons_of_mem q hr)
    unfold insGroup at hp
    by_cases h1 : k = q.1
    · rw [if_pos h1] at hp
      rcases List.mem_cons.mp hp with hq | hp2
      · rw [hq]; exact hacc q (by simp)
      · exact hacc p (List.mem_cons_of_mem q hp2)
    · rw [if_neg h1] at hp
      by_cases h2 : lexLt k q.1 = true
      · rw [if_pos h2] at hp
        rcases List.mem_cons.mp hp with hq | hp2
        · rw [hq]; exact hk
        · exact hacc p hp2
      · rw [if_neg h2] at hp
        rcases List.mem_cons.mp hp with hq | hp2
        · rw [hq]; exact hacc q (by simp)
        · exact ih hacct p hp2

theorem foldl_insGroup_key_ne {s : PyStr} :
    ∀ (l acc : List (PyStr × Int)), (∀ p ∈ l, p.1 ≠ s) → (∀ p ∈ acc, p.1 ≠ s) →
      ∀ p ∈ l.foldl (fun acc p => insGroup p.1 p.2 acc) acc, p.1 ≠ s := by
  intro l
  induction l with
  | nil => intro acc _ hacc; simpa using hacc
  | cons q t ih =>
    intro acc hl hacc
    simp only [List.foldl_cons]
    exact ih _ (fun r hr => hl r (List.mem_cons_of_mem q hr))
      (insGroup_key_ne hacc (hl q (by simp)))

theorem groupSum_key_ne {s : PyStr} {l : List (PyStr × Int)}
    (h : ∀ p ∈ l, p.1 ≠ s) : ∀ p ∈ groupSum l, p.1 ≠ s :=
  foldl_insGroup_key_ne l [] h (by simp)

theorem mem_keys_insGroup {s k : PyStr} {v : Int} {acc : List (PyStr × Int)} :
    s ∈ (insGroup k v acc).map Prod.fst ↔ s = k ∨ s ∈ acc.map Prod.fst := by
  induction acc with
  | nil => simp [insGroup]
  | cons q t ih =>
    unfold insGroup
    by_cases h1 : k = q.1
    · rw [if_pos h1]
      simp only [List.map_cons, List.mem_cons]
      constructor
      · intro hh
        rcases hh with hh | hh
        · exact Or.inr (Or.inl hh)
        · exact Or.inr (Or.inr hh)
      · intro hh
        rcases hh with hh | hh | hh
        · exact Or.inl (by rw [hh, h1])
        · exact Or.inl hh
        · exact Or.inr hh
    · rw [if_neg h1]
      by_cases h2 : lexLt k q.1 = true
      · rw [if_pos h2]
        simp
      · rw [if_neg h2]
        simp only [List.map_cons, List.mem_cons, ih]
        tauto

theorem foldl_insGroup_keys {s : PyStr} :
    ∀ (l acc : List (PyStr × Int)), (s ∈ l.map Prod.fst ∨ s ∈ acc.map Prod.fst) →
      s ∈ (l.foldl (fun acc p => insGroup p.1 p.2 acc) acc).map Prod.fst := by
  intro l
  induction l with
  | nil =>
    intro acc hacc
    rcases hacc with hacc | hacc
    · simp at hacc
    · simpa using hacc
  | cons q t ih =>
    intro acc hacc
    simp only [List.foldl_cons]
    apply ih
    rcases hacc with hacc | hacc
    · simp only [List.map_cons, List.mem_cons] at hacc
      rcases hacc with hacc | hacc
      · exact Or.inr (mem_keys_insGroup.mpr (Or.inl hacc))
      · exact Or.inl hacc
    · exact Or.inr (mem_keys_insGroup.mpr (Or.inr hacc))

theorem mem_keys_groupSum {s : PyStr} {l : List (PyStr × Int)}
    (h : s ∈ l.map Prod.fst) : s ∈ (groupSum l).map Prod.fst :=
  foldl_insGroup_keys l [] (Or.inl h)

theorem lookupD_eq_zero {l : List (PyStr × Int)} {k : PyStr}
    (h : ∀ p ∈ l, p.1 ≠ k) : lookupD l k = 0 := by
  unfold lookupD
  have : l.find? (fun p => p.1 == k) = none :=
    List.find?_eq_none.mpr (fun p hp => by simpa using h p hp)
  rw [this]

theorem comparative_only_enrol_row {enrol demo bio : List (PyStr × Int)} {s : PyStr}
    (he : s ∈ enrol.map Prod.fst)
    (hd : ∀ p ∈ demo, p.1 ≠ s) (hb : ∀ p ∈ bio, p.1 ≠ s) :
    ∃ row ∈ comparative_state_metrics enrol demo bio,
      row.state = s ∧ row.demoUpdates = 0 ∧ row.bioUpdates = 0
      ∧ row.demoPerEnrol = (if row.enrolments = 0 then none else some 0)
      ∧ row.bioPerEnrol = (if row.enrolments = 0 then none else some 0) := by
  have hkeys : s ∈ outerKeys (groupSum enrol) (groupSum demo) (groupSum bio) := by
    unfold outerKeys
    exact List.mem_append.mpr (Or.inl (List.mem_append.mpr (Or.inl (mem_keys_groupSum he))))
  have hd0 : lookupD (groupSum demo) s = 0 := lookupD_eq_zero (groupSum_key_ne hd)
  have hb0 : lookupD (groupSum bio) s = 0 := lookupD_eq_zero (groupSum_key_ne hb)
  refine ⟨⟨s, lookupD (groupSum enrol) s, lookupD (groupSum demo) s, lookupD (groupSum bio) s,
      ratioOrNull (lookupD (groupSum demo) s) (lookupD (groupSum enrol) s),
      ratioOrNull (lookupD (groupSum bio) s) (lookupD (groupSum enrol) s),
      lookupD (groupSum enrol) s + lookupD (groupSum demo) s + lookupD (groupSum bio) s⟩,
    ?_, rfl, hd0, hb0, ?_, ?_⟩
  · unfold comparative_state_metrics
    rw [mem_sortByDesc, List.mem_map]
    exact ⟨s, hkeys, rfl⟩
  · show ratioOrNull (lookupD (groupSum demo) s) (lookupD (groupSum enrol) s)
      = if lookupD (groupSum enrol) s = 0 then none else some 0
    rw [hd0]
    unfold ratioOrNull
    by_cases h0 : lookupD (groupSum enrol) s = 0
    · rw [if_pos h0, if_pos h0]
    · rw [if_neg h0, if_neg h0]
      norm_num
  · show ratioOrNull (lookupD (groupSum bio) s) (lookupD (groupSum enrol) s)
      = if lookupD (groupSum enrol) s = 0 then none else some 0
    rw [hb0]
    unfold ratioOrNull
    by_cases h0 : lookupD (groupSum enrol) s = 0
    · rw [if_pos h0, if_pos h0]
    · rw [if_neg h0, if_neg h0]
      norm_num

theorem comparative_zero_enrol_null {enrol demo bio : List (PyStr × Int)} :
    ∀ row ∈ comparative_state_metrics enrol demo bio, row.enrolments = 0 →
      row.demoPerEnrol = none ∧ row.bioPerEnrol = none := by
  intro row hrow h0
  unfold comparative_state_metrics at hrow
  rw [mem_sortByDesc, List.mem_map] at hrow
  obtain ⟨s, hs, rfl⟩ := hrow
  have h0' : lookupD (groupSum enrol) s = 0 := h0
  constructor
  · show ratioOrNull (lookupD (groupSum demo) s) (lookupD (groupSum enrol) s) = none
    unfold ratioOrNull
    rw [if_pos h0']
  · show ratioOrNull (lookupD (groupSum bio) s) (lookupD (groupSum enrol) s) = none
    unfold ratioOrNull
    rw [if_pos h0']

theorem parse_dates_missing {df : Df} {dc : PyStr} (h : dc ∉ df.header) :
    parse_dates df dc = .error (.keyError dc) := by
  unfold parse_dates
  rw [colIdx_eq_none h]

theorem validate_pincode_missing {df : Df} {pc : PyStr} (h : pc ∉ df.header) :
    validate_pincode df pc = .error (.keyError pc) := by
  unfold validate_pincode
  rw [colIdx_eq_none h]

theorem normalize_state_names_missing {df : Df} {sc : PyStr} (h : sc ∉ df.header) :
    normalize_state_names df sc = .error (.keyError sc) := by
  unfold normalize_state_names
  rw [colIdx_eq_none h]

theorem add_temporal_features_missing {df : Df} {dc : PyStr} (h : dc ∉ df.header) :
    add_temporal_features df dc = .error (.keyError dc) := by
  unfold add_temporal_features
  rw [colIdx_eq_none h]

theorem add_enrolment_totals_missing {df : Df} {c : PyStr} (hc : c ∈ ageCols)
    (h : c ∉ df.header) : add_enrolment_totals df = df := by
  unfold add_enrolment_totals
  have hall : ageCols.all (fun c => (colIdx df.header c).isSome) = false := by
    cases hall : ageCols.all (fun c => (colIdx df.header c).isSome) with
    | false => rfl
    | true =>
      have := List.all_eq_true.mp hall c hc
      rw [colIdx_eq_none h] at this
      simp at this
  rw [hall]
  simp

theorem add_update_totals_nopref {df : Df} {pref : PyStr}
    (h : ∀ c ∈ df.header, pref.isPrefixOf c = false) :
    add_update_totals df pref = df := by
  unfold add_update_totals
  have hfil : List.filter (fun c => pref.isPrefixOf c) df.header = [] := by
    rw [List.filter_eq_nil]
    intro c hc
    simp [h c hc]
  rw [hfil]
  simp

theorem iqrLow_null (df : Df) (i : Nat) (mult : ℚ) : iqrLow df i mult Val.vNull = false := by
  unfold iqrLow
  cases iqrBounds df i mult <;> rfl

theorem iqrHigh_null (df : Df) (i : Nat) (mult : ℚ) : iqrHigh df i mult Val.vNull = false := by
  unfold iqrHigh
  cases iqrBounds df i mult <;> rfl

theorem iqrType_null (df : Df) (i : Nat) (mult : ℚ) :
    iqrType df i mult Val.vNull = Val.vStr (strLit "normal") := by
  unfold iqrType
  rw [iqrLow_null, iqrHigh_null]
  simp

theorem iqrType_cases (df : Df) (i : Nat) (mult : ℚ) (v : Val) :
    iqrType df i mult v = Val.vStr (strLit "low")
    ∨ iqrType df i mult v = Val.vStr (strLit "high")
    ∨ iqrType df i mult v = Val.vStr (strLit "normal") := by
  unfold iqrType
  by_cases h1 : iqrLow df i mult v = true
  · simp [h1]
  · simp only [Bool.not_eq_true] at h1
    by_cases h2 : iqrHigh df i mult v = true
    · simp [h1, h2]
    · simp only [Bool.not_eq_true] at h2
      simp [h1, h2]

/-- The IQR method keeps each null-valued row in place, flags it `false` and
labels it `normal`, leaving every other column of the row untouched. -/
theorem detect_iqr_null_row {df out : Df} {col : PyStr} {mult : ℚ}
    (hu : df.Uniform) (hc1 : col ≠ strLit "is_anomaly") (hc2 : col ≠ strLit "anomaly_type")
    (h : detect_anomalies_iqr df col mult = .ok out) :
    out.rows.length = df.rows.length
    ∧ ∀ k r, df.rows.get? k = some r → cellOf df col r = Val.vNull →
      ∃ r', out.rows.get? k = some r'
        ∧ cellOf out (strLit "is_anomaly") r' = Val.vBool false
        ∧ cellOf out (strLit "anomaly_type") r' = Val.vStr (strLit "normal")
        ∧ ∀ m, m ≠ strLit "is_anomaly" → m ≠ strLit "anomaly_type" →
            cellOf out m r' = cellOf df m r := by
  obtain ⟨i, hci, hout⟩ := detect_iqr_ok h
  subst hout
  constructor
  · rw [updCol_rows_length, updCol_rows_length]
  · intro k r hr hnull
    have hrmem : r ∈ df.rows := List.get?_mem hr
    have hur : r.length = df.header.length := hu r hrmem
    set f1 := fun (r : List Val) => Val.vBool (iqrLow df i mult (cellAt r (some i))
      || iqrHigh df i mult (cellAt r (some i))) with hf1
    set f2 := fun (r : List Val) => iqrType df i mult (cellAt r (some i)) with hf2
    set df1 := updCol df (strLit "is_anomaly") f1 with hdf1
    set r1 := updRow df.header (strLit "is_anomaly") f1 r with hr1
    have hget1 : df1.rows.get? k = some r1 := by
      rw [hdf1, updCol_rows_get?, hr]
      rfl
    have hget2 : (updCol df1 (strLit "anomaly_type") f2).rows.get? k
        = some (updRow df1.header (strLit "anomaly_type") f2 r1) := by
      rw [updCol_rows_get?, hget1]
      rfl
    have hlen1 : r1.length = df1.header.length := by
      rw [hr1, hdf1]
      exact updRow_length hur
    have hival : cellAt r (some i) = Val.vNull := by
      rw [← cellOf_eq_cellAt hci]
      exact hnull
    have hne_ia : df.header.get? i ≠ some (strLit "is_anomaly") := by
      rw [colIdx_get hci]
      intro hcontra
      exact hc1 (Option.some.inj hcontra)
    have hival1 : cellAt r1 (some i) = Val.vNull := by
      rw [hr1, cellAt_updRow_at_ne hne_ia hur (colIdx_lt hci)]
      exact hival
    refine ⟨_, hget2, ?_, ?_, ?_⟩
    · have e1 : cellOf (updCol df1 (strLit "anomaly_type") f2) (strLit "is_anomaly")
          (updRow df1.header (strLit "anomaly_type") f2 r1)
          = cellAt r1 (colIdx df1.header (strLit "is_anomaly")) :=
        cellAt_updRow_ne (by decide) hlen1
      have e2 : cellAt r1 (colIdx df1.header (strLit "is_anomaly")) = f1 r :=
        cellAt_updRow_self hur
      rw [e1, e2, hf1]
      show Val.vBool (iqrLow df i mult (cellAt r (some i))
        || iqrHigh df i mult (cellAt r (some i))) = Val.vBool false
      rw [hival, iqrLow_null, iqrHigh_null]
      rfl
    · have e1 : cellOf (updCol df1 (strLit "anomaly_type") f2) (strLit "anomaly_type")
          (updRow df1.header (strLit "anomaly_type") f2 r1) = f2 r1 :=
        cellAt_updRow_self hlen1
      rw [e1, hf2]
      show iqrType df i mult (cellAt r1 (some i)) = Val.vStr (strLit "normal")
      rw [hival1, iqrType_null]
    · intro m hm1 hm2
      have s1 : cellOf (updCol df1 (strLit "anomaly_type") f2) m
          (updRow df1.header (strLit "anomaly_type") f2 r1)
          = cellAt r1 (colIdx df1.header m) :=
        cellAt_updRow_ne hm2 hlen1
      have s2 : cellAt r1 (colIdx df1.header m) = cellAt r (colIdx df.header m) := by
        rw [hr1]
        exact cellAt_updRow_ne hm1 hur
      rw [s1, s2]
      rfl

/-- The IQR method attaches a boolean flag and a three-valued category to every row. -/
theorem detect_iqr_cells {df out : Df} {col : PyStr} {mult : ℚ} (hu : df.Uniform)
    (h : detect_anomalies_iqr df col mult = .ok out) :
    ColAll out (strLit "is_anomaly") (fun v => ∃ b, v = Val.vBool b)
    ∧ ColAll out (strLit "anomaly_type") (fun v => v = Val.vStr (strLit "low")
        ∨ v = Val.vStr (strLit "high") ∨ v = Val.vStr (strLit "normal")) := by
  obtain ⟨i, hci, hout⟩ := detect_iqr_ok h
  subst hout
  constructor
  · have hinner : ColAll (updCol df (strLit "is_anomaly")
        (fun r => Val.vBool (iqrLow df i mult (cellAt r (some i))
          || iqrHigh df i mult (cellAt r (some i)))))
        (strLit "is_anomaly") (fun v => ∃ b, v = Val.vBool b) :=
      colAll_updCol_self hu (fun r _ => ⟨_, rfl⟩)
    exact colAll_updCol_ne (by decide) (uniform_updCol hu) hinner
  · exact colAll_updCol_self (uniform_updCol hu) (fun r _ => iqrType_cases df i mult _)

/-- The z-score method attaches a boolean flag to every row but no category column. -/
theorem detect_zscore_cells {df out : Df} {col : PyStr} {t : ℚ} (hu : df.Uniform)
    (h : detect_anomalies_zscore df col t = .ok out) :
    ColAll out (strLit "is_anomaly") (fun v => ∃ b, v = Val.vBool b)
    ∧ (strLit "anomaly_type" ∉ df.header → strLit "anomaly_type" ∉ out.header) := by
  obtain ⟨i, hci, hout⟩ := detect_zscore_ok h
  subst hout
  constructor
  · exact colAll_updCol_self (uniform_updCol hu) (fun r _ => ⟨_, rfl⟩)
  · intro hnot hmem
    rcases mem_header_updCol_inv hmem with h' | h'
    · rcases mem_header_updCol_inv h' with h'' | h''
      · exact hnot h''
      · exact absurd h'' (by decide)
    · exact absurd h' (by decide)

example :
    detect_anomalies_iqr
      ⟨[strLit "v"], [[Val.vNum 10], [Val.vNum 10], [Val.vNum 10], [Val.vNum 10],
        [Val.vNum 10], [Val.vNum 100]]⟩ (strLit "v") (3 / 2)
    = .ok ⟨[strLit "v", strLit "is_anomaly", strLit "anomaly_type"],
        [[Val.vNum 10, Val.vBool false, Val.vStr (strLit "normal")],
         [Val.vNum 10, Val.vBool false, Val.vStr (strLit "normal")],
         [Val.vNum 10, Val.vBool false, Val.vStr (strLit "normal")],
         [Val.vNum 10, Val.vBool false, Val.vStr (strLit "normal")],
         [Val.vNum 10, Val.vBool false, Val.vStr (strLit "normal")],
         [Val.vNum 100, Val.vBool true, Val.vStr (strLit "high")]]⟩ := by decide

example :
    detect_anomalies_zscore ⟨[strLit "v"], [[Val.vNum 7], [Val.vNum 7], [Val.vNum 7]]⟩
      (strLit "v") 3
    = .ok ⟨[strLit "v", strLit "zscore", strLit "is_anomaly"],
        [[Val.vNum 7, Val.vNull, Val.vBool false],
         [Val.vNum 7, Val.vNull, Val.vBool false],
         [Val.vNum 7, Val.vNull, Val.vBool false]]⟩ := by decide

example :
    comparative_state_metrics [(strLit "A", 10)] [] []
    = [⟨strLit "A", 10, 0, 0, some 0, some 0, 10⟩] := by decide

example :
    state_aggregations [(strLit "A", 5), (strLit "B", 5)]
    = [⟨strLit "A", 5, 1⟩, ⟨strLit "B", 5, 2⟩] := by decide

/-! ### Stage destructuring and preservation lemmas -/

theorem parse_dates_ok {df d1 : Df} {dc : PyStr} (h : parse_dates df dc = .ok d1) :
    ∃ i, colIdx df.header dc = some i
      ∧ d1 = updCol df dc (fun r => parseCell (cellAt r (some i))) := by
  unfold parse_dates at h
  cases hc : colIdx df.header dc with
  | none => rw [hc] at h; simp at h
  | some i =>
    rw [hc] at h
    exact ⟨i, rfl, (Except.ok.inj h).symm⟩

theorem validate_pincode_ok {df d3 : Df} {pc : PyStr} (h : validate_pincode df pc = .ok d3) :
    ∃ i, colIdx df.header pc = some i
      ∧ d3 = filterRows (updCol df pc (fun r => Val.vStr (pyStrip (astypeStr (cellAt r (some i))))))
          (fun r => match cellAt r (some i) with
            | Val.vStr s => isSixDigit s
            | _ => false) := by
  unfold validate_pincode at h
  cases hc : colIdx df.header pc with
  | none => rw [hc] at h; simp at h
  | some i =>
    rw [hc] at h
    exact ⟨i, rfl, (Except.ok.inj h).symm⟩

theorem normalize_state_names_ok {df d4 : Df} {sc : PyStr}
    (h : normalize_state_names df sc = .ok d4) :
    ∃ i, colIdx df.header sc = some i
      ∧ d4 = updCol (updCol (updCol (updCol
          (filterRows df (fun r => !(isNumericStr (astypeStr (cellAt r (some i))))))
          sc (fun r => Val.vStr (pyStrip (astypeStr (cellAt r (some i))))))
          sc (fun r => replCell (cellAt r (some i))))
          sc (fun r => titleCell (cellAt r (some i))))
          sc (fun r => replCell (cellAt r (some i))) := by
  unfold normalize_state_names at h
  cases hc : colIdx df.header sc with
  | none => rw [hc] at h; simp at h
  | some i =>
    rw [hc] at h
    exact ⟨i, rfl, (Except.ok.inj h).symm⟩

theorem add_temporal_features_ok {df d5 : Df} {dc : PyStr}
    (h : add_temporal_features df dc = .ok d5) :
    ∃ i, colIdx df.header dc = some i
      ∧ d5 = updCol (updCol (updCol (updCol (updCol (updCol df
          (strLit "year") (fun r =>
            match cellAt r (some i) with
            | Val.vDate _ _ y => Val.vNum y
            | _ => Val.vNull))
          (strLit "month") (fun r =>
            match cellAt r (some i) with
            | Val.vDate _ m _ => Val.vNum m
            | _ => Val.vNull))
          (strLit "quarter") (fun r =>
            match cellAt r (some i) with
            | Val.vDate _ m _ => Val.vNum ((m - 1) / 3 + 1 : Nat)
            | _ => Val.vNull))
          (strLit "day_of_week") (fun r =>
            match cellAt r (some i) with
            | Val.vDate d m y => Val.vNum (dayOfWeekMon d m y)
            | _ => Val.vNull))
          (strLit "month_name") (fun r =>
            match cellAt r (some i) with
            | Val.vDate _ m _ => Val.vStr (monthName m)
            | _ => Val.vNull))
          (strLit "week") (fun r =>
            match cellAt r (some i) with
            | Val.vDate d m y => Val.vNum (isoWeek d m y)
            | _ => Val.vNull) := by
  unfold add_temporal_features at h
  cases hc : colIdx df.header dc with
  | none => rw [hc] at h; simp at h
  | some i =>
    rw [hc] at h
    exact ⟨i, rfl, (Except.ok.inj h).symm⟩

theorem remove_invalid_header (df : Df) : (remove_invalid_records df).header = df.header := rfl

theorem remove_invalid_nonnull {df : Df} {c : PyStr} (hc : c ∈ requiredCols)
    (hmem : c ∈ df.header) :
    ColAll (remove_invalid_records df) c (· ≠ Val.vNull) := by
  unfold remove_invalid_records
  apply colAll_filterRows_establish
  intro r hr hp
  have hcex : c ∈ requiredCols.filter (fun c => (colIdx df.header c).isSome) :=
    List.mem_filter.mpr ⟨hc, colIdx_isSome_of_mem hmem⟩
  have hall := List.all_eq_true.mp hp c hcex
  intro he
  rw [he] at hall
  simp at hall

theorem colAll_remove_invalid {df : Df} {c : PyStr} {P : Val → Prop}
    (h : ColAll df c P) : ColAll (remove_invalid_records df) c P :=
  colAll_filterRows h

/-- A cell holding a string. -/
def IsVStr (v : Val) : Prop := ∃ s, v = Val.vStr s

/-- The invariant of interest for a preprocessed table. -/
def GoodRow (out : Df) (r : List Val) : Prop :=
  cellOf out (strLit "date") r ≠ Val.vNull
  ∧ cellOf out (strLit "state") r ≠ Val.vNull
  ∧ (strLit "district" ∈ out.header → cellOf out (strLit "district") r ≠ Val.vNull)
  ∧ ∃ s, cellOf out (strLit "pincode") r = Val.vStr s ∧ isSixDigit s = true

/-- After the five shared cleaning stages, every surviving row has a non-null
date and state, a non-null district when a district column exists, and a
six-digit string PIN; moreover the table is uniform and a district column can
only come from the input. -/
theorem pipeline5_good {df d1 d3 d4 d5 : Df} (hu : df.Uniform)
    (h1 : parse_dates df = .ok d1)
    (h3 : validate_pincode (remove_invalid_records d1) = .ok d3)
    (h4 : normalize_state_names d3 = .ok d4)
    (h5 : add_temporal_features d4 = .ok d5) :
    d5.Uniform
    ∧ ColAll d5 (strLit "date") (· ≠ Val.vNull)
    ∧ ColAll d5 (strLit "state") (· ≠ Val.vNull)
    ∧ (strLit "district" ∈ d5.header → ColAll d5 (strLit "district") (· ≠ Val.vNull))
    ∧ ColAll d5 (strLit "pincode") (fun v => ∃ s, v = Val.vStr s ∧ isSixDigit s = true) := by
  obtain ⟨i1, hci1, hd1⟩ := parse_dates_ok h1
  obtain ⟨i3, hci3, hd3⟩ := validate_pincode_ok h3
  obtain ⟨i4, hci4, hd4⟩ := normalize_state_names_ok h4
  obtain ⟨i5, hci5, hd5⟩ := add_temporal_features_ok h5
  -- stage 1: parse_dates
  have hu1 : d1.Uniform := by rw [hd1]; exact uniform_updCol hu
  have hdr1 : d1.header = df.header := by rw [hd1]; exact updCol_header_of_some hci1
  -- stage 2: remove_invalid_records
  have hu2 : (remove_invalid_records d1).Uniform := uniform_filterRows hu1
  have hdr2 : (remove_invalid_records d1).header = df.header := by
    rw [remove_invalid_header, hdr1]
  -- memberships recovered from later stage successes
  have hpinmem : strLit "pincode" ∈ (remove_invalid_records d1).header := colIdx_mem hci3
  have hstmem3 : strLit "state" ∈ d3.header := colIdx_mem hci4
  have hdatemem : strLit "date" ∈ (remove_invalid_records d1).header := by
    rw [hdr2]
    exact colIdx_mem hci1
  -- stage 2 non-null facts
  have hdate2 : ColAll (remove_invalid_records d1) (strLit "date") (· ≠ Val.vNull) :=
    remove_invalid_nonnull (by decide) (by rw [remove_invalid_header] at hdatemem; exact hdatemem)
  have hdist2 : strLit "district" ∈ d1.header →
      ColAll (remove_invalid_records d1) (strLit "district") (· ≠ Val.vNull) :=
    fun hm => remove_invalid_nonnull (by decide) hm
  -- stage 3: validate_pincode
  have hdrv : (updCol (remove_invalid_records d1) (strLit "pincode")
      (fun r => Val.vStr (pyStrip (astypeStr (cellAt r (some i3)))))).header
      = (remove_invalid_records d1).header :=
    updCol_header_of_some hci3
  have huv : (updCol (remove_invalid_records d1) (strLit "pincode")
      (fun r => Val.vStr (pyStrip (astypeStr (cellAt r (some i3)))))).Uniform :=
    uniform_updCol hu2
  have hu3 : d3.Uniform := by rw [hd3]; exact uniform_filterRows huv
  have hdr3 : d3.header = df.header := by rw [hd3, filterRows, hdrv, hdr2]
  have hpin3 : ColAll d3 (strLit "pincode") (fun v => ∃ s, v = Val.vStr s ∧ isSixDigit s = true) := by
    rw [hd3]
    apply colAll_filterRows_establish
    intro r hr hp
    have hciv : colIdx (updCol (remove_invalid_records d1) (strLit "pincode")
        (fun r => Val.vStr (pyStrip (astypeStr (cellAt r (some i3)))))).header
        (strLit "pincode") = some i3 := by rw [hdrv]; exact hci3
    rw [cellOf_eq_cellAt hciv]
    cases hv : cellAt r (some i3) with
    | vStr s =>
      rw [hv] at hp
      exact ⟨s, rfl, hp⟩
    | vNull => rw [hv] at hp; simp at hp
    | vNum q => rw [hv] at hp; simp at hp
    | vDate a b c => rw [hv] at hp; simp at hp
    | vBool b => rw [hv] at hp; simp at hp
  have hdate3 : ColAll d3 (strLit "date") (· ≠ Val.vNull) := by
    rw [hd3]
    exact colAll_filterRows (colAll_updCol_ne (by decide) hu2 hdate2)
  have hdist3 : strLit "district" ∈ d1.header →
      ColAll d3 (strLit "district") (· ≠ Val.vNull) := by
    intro hm
    rw [hd3]
    exact colAll_filterRows (colAll_updCol_ne (by decide) hu2 (hdist2 hm))
  -- stage 4: normalize_state_names
  rw [hd4] at hci5 hd5
  set dn0 := filterRows d3 (fun r => !(isNumericStr (astypeStr (cellAt r (some i4))))) with hdn0
  set f2 := fun (r : List Val) => Val.vStr (pyStrip (astypeStr (cellAt r (some i4)))) with hf2
  set f3 := fun (r : List Val) => replCell (cellAt r (some i4)) with hf3
  set f4 := fun (r : List Val) => titleCell (cellAt r (some i4)) with hf4
  set dn1 := updCol dn0 (strLit "state") f2 with hdn1
  set dn2 := updCol dn1 (strLit "state") f3 with hdn2
  set dn3 := updCol dn2 (strLit "state") f4 with hdn3
  set dn4 := updCol dn3 (strLit "state") f3 with hdn4
  have hdrn0 : dn0.header = d3.header := rfl
  have hun0 : dn0.Uniform := uniform_filterRows hu3
  have hcin0 : colIdx dn0.header (strLit "state") = some i4 := by rw [hdrn0]; exact hci4
  have hdrn1 : dn1.header = d3.header := by
    rw [hdn1, updCol_header_of_some hcin0]
    exact hdrn0
  have hun1 : dn1.Uniform := uniform_updCol hun0
  have hcin1 : colIdx dn1.header (strLit "state") = some i4 := by rw [hdrn1]; exact hci4
  have hdrn2 : dn2.header = d3.header := by
    rw [hdn2, updCol_header_of_some hcin1]
    exact hdrn1
  have hun2 : dn2.Uniform := uniform_updCol hun1
  have hcin2 : colIdx dn2.header (strLit "state") = some i4 := by rw [hdrn2]; exact hci4
  have hdrn3 : dn3.header = d3.header := by
    rw [hdn3, updCol_header_of_some hcin2]
    exact hdrn2
  have hun3 : dn3.Uniform := uniform_updCol hun2
  have hcin3 : colIdx dn3.header (strLit "state") = some i4 := by rw [hdrn3]; exact hci4
  have hdrn4 : dn4.header = d3.header := by
    rw [hdn4, updCol_header_of_some hcin3]
    exact hdrn3
  have hun4 : dn4.Uniform := uniform_updCol hun3
  -- the state column holds strings after each of the four assignments
  have hst1 : ColAll dn1 (strLit "state") IsVStr := by
    rw [hdn1]
    exact colAll_updCol_self hun0 (fun r _ => ⟨_, rfl⟩)
  have hst2 : ColAll dn2 (strLit "state") IsVStr := by
    rw [hdn2]
    have hh : ∀ r ∈ dn1.rows, IsVStr (f3 r) := by
      intro r hr
      obtain ⟨s, hs⟩ := hst1 r hr
      rw [cellOf_eq_cellAt hcin1] at hs
      show IsVStr (replCell (cellAt r (some i4)))
      rw [hs]
      exact ⟨_, rfl⟩
    exact colAll_updCol_self hun1 hh
  have hst3 : ColAll dn3 (strLit "state") IsVStr := by
    rw [hdn3]
    have hh : ∀ r ∈ dn2.rows, IsVStr (f4 r) := by
      intro r hr
      obtain ⟨s, hs⟩ := hst2 r hr
      rw [cellOf_eq_cellAt hcin2] at hs
      show IsVStr (titleCell (cellAt r (some i4)))
      rw [hs]
      exact ⟨_, rfl⟩
    exact colAll_updCol_self hun2 hh
  have hst4 : ColAll dn4 (strLit "state") IsVStr := by
    rw [hdn4]
    have hh : ∀ r ∈ dn3.rows, IsVStr (f3 r) := by
      intro r hr
      obtain ⟨s, hs⟩ := hst3 r hr
      rw [cellOf_eq_cellAt hcin3] at hs
      show IsVStr (replCell (cellAt r (some i4)))
      rw [hs]
      exact ⟨_, rfl⟩
    exact colAll_updCol_self hun3 hh
  have hdate_n1 : ColAll dn1 (strLit "date") (· ≠ Val.vNull) := by
    rw [hdn1]
    exact colAll_updCol_ne (by decide) hun0 (colAll_filterRows hdate3)
  have hdate_n2 : ColAll dn2 (strLit "date") (· ≠ Val.vNull) := by
    rw [hdn2]
    exact colAll_updCol_ne (by decide) hun1 hdate_n1
  have hdate_n3 : ColAll dn3 (strLit "date") (· ≠ Val.vNull) := by
    rw [hdn3]
    exact colAll_updCol_ne (by decide) hun2 hdate_n2
  have hdate4 : ColAll dn4 (strLit "date") (· ≠ Val.vNull) := by
    rw [hdn4]
    exact colAll_updCol_ne (by decide) hun3 hdate_n3
  have hpin_n1 : ColAll dn1 (strLit "pincode")
      (fun v => ∃ s, v = Val.vStr s ∧ isSixDigit s = true) := by
    rw [hdn1]
    exact colAll_updCol_ne (by decide) hun0 (colAll_filterRows hpin3)
  have hpin_n2 : ColAll dn2 (strLit "pincode")
      (fun v => ∃ s, v = Val.vStr s ∧ isSixDigit s = true) := by
    rw [hdn2]
    exact colAll_updCol_ne (by decide) hun1 hpin_n1
  have hpin_n3 : ColAll dn3 (strLit "pincode")
      (fun v => ∃ s, v = Val.vStr s ∧ isSixDigit s = true) := by
    rw [hdn3]
    exact colAll_updCol_ne (by decide) hun2 hpin_n2
  have hpin4 : ColAll dn4 (strLit "pincode")
      (fun v => ∃ s, v = Val.vStr s ∧ isSixDigit s = true) := by
    rw [hdn4]
    exact colAll_updCol_ne (by decide) hun3 hpin_n3
  have hdist4 : strLit "district" ∈ d1.header →
      ColAll dn4 (strLit "district") (· ≠ Val.vNull) := by
    intro hm
    have d_n1 : ColAll dn1 (strLit "district") (· ≠ Val.vNull) := by
      rw [hdn1]
      exact colAll_updCol_ne (by decide) hun0 (colAll_filterRows (hdist3 hm))
    have d_n2 : ColAll dn2 (strLit "district") (· ≠ Val.vNull) := by
      rw [hdn2]
      exact colAll_updCol_ne (by decide) hun1 d_n1
    have d_n3 : ColAll dn3 (strLit "district") (· ≠ Val.vNull) := by
      rw [hdn3]
      exact colAll_updCol_ne (by decide) hun2 d_n2
    rw [hdn4]
    exact colAll_updCol_ne (by decide) hun3 d_n3
  -- stage 5: add_temporal_features, six appended feature columns
  rw [hd5]
  set g1 := updCol dn4 (strLit "year") (fun r =>
    match cellAt r (some i5) with
    | Val.vDate _ _ y => Val.vNum y
    | _ => Val.vNull) with hg1
  set g2 := updCol g1 (strLit "month") (fun r =>
    match cellAt r (some i5) with
    | Val.vDate _ m _ => Val.vNum m
    | _ => Val.vNull) with hg2
  set g3 := updCol g2 (strLit "quarter") (fun r =>
    match cellAt r (some i5) with
    | Val.vDate _ m _ => Val.vNum ((m - 1) / 3 + 1 : Nat)
    | _ => Val.vNull) with hg3
  set g4 := updCol g3 (strLit "day_of_week") (fun r =>
    match cellAt r (some i5) with
    | Val.vDate d m y => Val.vNum (dayOfWeekMon d m y)
    | _ => Val.vNull) with hg4
  set g5 := updCol g4 (strLit "month_name") (fun r =>
    match cellAt r (some i5) with
    | Val.vDate _ m _ => Val.vStr (monthName m)
    | _ => Val.vNull) with hg5
  set g6 := updCol g5 (strLit "week") (fun r =>
    match cellAt r (some i5) with
    | Val.vDate d m y => Val.vNum (isoWeek d m y)
    | _ => Val.vNull) with hg6
  have hug1 : g1.Uniform := uniform_updCol hun4
  have hug2 : g2.Uniform := uniform_updCol hug1
  have hug3 : g3.Uniform := uniform_updCol hug2
  have hug4 : g4.Uniform := uniform_updCol hug3
  have hug5 : g5.Uniform := uniform_updCol hug4
  have hug6 : g6.Uniform := uniform_updCol hug5
  have hdate6 : ColAll g6 (strLit "date") (· ≠ Val.vNull) :=
    colAll_updCol_ne (by decide) hug5 (colAll_updCol_ne (by decide) hug4
      (colAll_updCol_ne (by decide) hug3 (colAll_updCol_ne (by decide) hug2
        (colAll_updCol_ne (by decide) hug1 (colAll_updCol_ne (by decide) hun4 hdate4)))))
  have hstate6 : ColAll g6 (strLit "state") IsVStr :=
    colAll_updCol_ne (by decide) hug5 (colAll_updCol_ne (by decide) hug4
      (colAll_updCol_ne (by decide) hug3 (colAll_updCol_ne (by decide) hug2
        (colAll_updCol_ne (by decide) hug1 (colAll_updCol_ne (by decide) hun4 hst4)))))
  have hpin6 : ColAll g6 (strLit "pincode")
      (fun v => ∃ s, v = Val.vStr s ∧ isSixDigit s = true) :=
    colAll_updCol_ne (by decide) hug5 (colAll_updCol_ne (by decide) hug4
      (colAll_updCol_ne (by decide) hug3 (colAll_updCol_ne (by decide) hug2
        (colAll_updCol_ne (by decide) hug1 (colAll_updCol_ne (by decide) hun4 hpin4)))))
  have hdistmemback : strLit "district" ∈ g6.header → strLit "district" ∈ d1.header := by
    intro hm
    have m5 : strLit "district" ∈ g5.header := by
      rcases mem_header_updCol_inv hm with h' | h'
      · exact h'
      · exact absurd h' (by decide)
    have m4 : strLit "district" ∈ g4.header := by
      rcases mem_header_updCol_inv m5 with h' | h'
      · exact h'
      · exact absurd h' (by decide)
    have m3 : strLit "district" ∈ g3.header := by
      rcases mem_header_updCol_inv m4 with h' | h'
      · exact h'
      · exact absurd h' (by decide)
    have m2 : strLit "district" ∈ g2.header := by
      rcases mem_header_updCol_inv m3 with h' | h'
      · exact h'
      · exact absurd h' (by decide)
    have m1 : strLit "district" ∈ g1.header := by
      rcases mem_header_updCol_inv m2 with h' | h'
      · exact h'
      · exact absurd h' (by decide)
    have m0 : strLit "district" ∈ dn4.header := by
      rcases mem_header_updCol_inv m1 with h' | h'
      · exact h'
      · exact absurd h' (by decide)
    rw [hdrn4, hdr3, ← hdr1] at m0
    exact m0
  have hdist6 : strLit "district" ∈ g6.header →
      ColAll g6 (strLit "district") (· ≠ Val.vNull) := by
    intro hm
    exact colAll_updCol_ne (by decide) hug5 (colAll_updCol_ne (by decide) hug4
      (colAll_updCol_ne (by decide) hug3 (colAll_updCol_ne (by decide) hug2
        (colAll_updCol_ne (by decide) hug1
          (colAll_updCol_ne (by decide) hun4 (hdist4 (hdistmemback hm)))))))
  exact ⟨hug6, hdate6, fun r hr => by
      obtain ⟨s, hs⟩ := hstate6 r hr
      rw [hs]
      simp,
    hdist6, hpin6⟩

theorem good_of_colAll {out : Df} (hd : ColAll out (strLit "date") (· ≠ Val.vNull))
    (hs : ColAll out (strLit "state") (· ≠ Val.vNull))
    (hdist : strLit "district" ∈ out.header →
      ColAll out (strLit "district") (· ≠ Val.vNull))
    (hp : ColAll out (strLit "pincode") (fun v => ∃ s, v = Val.vStr s ∧ isSixDigit s = true)) :
    ∀ r ∈ out.rows, GoodRow out r :=
  fun r hr => ⟨hd r hr, hs r hr, fun hm => hdist hm r hr, hp r hr⟩

theorem add_enrolment_totals_good {d5 : Df} (hu : d5.Uniform)
    (hd : ColAll d5 (strLit "date") (· ≠ Val.vNull))
    (hs : ColAll d5 (strLit "state") (· ≠ Val.vNull))
    (hdist : strLit "district" ∈ d5.header → ColAll d5 (strLit "district") (· ≠ Val.vNull))
    (hp : ColAll d5 (strLit "pincode") (fun v => ∃ s, v = Val.vStr s ∧ isSixDigit s = true)) :
    ∀ r ∈ (add_enrolment_totals d5).rows, GoodRow (add_enrolment_totals d5) r := by
  unfold add_enrolment_totals
  by_cases hc : ageCols.all (fun c => (colIdx d5.header c).isSome) = true
  all_goals simp only [hc, if_true, if_false, Bool.false_eq_true]
  · apply good_of_colAll
    · exact colAll_updCol_ne (by decide) hu hd
    · exact colAll_updCol_ne (by decide) hu hs
    · intro hm
      have hm' : strLit "district" ∈ d5.header := by
        rcases mem_header_updCol_inv hm with h' | h'
        · exact h'
        · exact absurd h' (by decide)
      exact colAll_updCol_ne (by decide) hu (hdist hm')
    · exact colAll_updCol_ne (by decide) hu hp
  · exact good_of_colAll hd hs hdist hp

theorem add_update_totals_good {d5 : Df} {pref : PyStr} (hu : d5.Uniform)
    (hd : ColAll d5 (strLit "date") (· ≠ Val.vNull))
    (hs : ColAll d5 (strLit "state") (· ≠ Val.vNull))
    (hdist : strLit "district" ∈ d5.header → ColAll d5 (strLit "district") (· ≠ Val.vNull))
    (hp : ColAll d5 (strLit "pincode") (fun v => ∃ s, v = Val.vStr s ∧ isSixDigit s = true)) :
    ∀ r ∈ (add_update_totals d5 pref).rows, GoodRow (add_update_totals d5 pref) r := by
  unfold add_update_totals
  by_cases hc : (List.filter (fun c => pref.isPrefixOf c) d5.header).isEmpty = true
  all_goals simp only [hc, if_true, if_false, Bool.false_eq_true]
  · exact good_of_colAll hd hs hdist hp
  · apply good_of_colAll
    · exact colAll_updCol_ne (by decide) hu hd
    · exact colAll_updCol_ne (by decide) hu hs
    · intro hm
      have hm' : strLit "district" ∈ d5.header := by
        rcases mem_header_updCol_inv hm with h' | h'
        · exact h'
        · exact absurd h' (by decide)
      exact colAll_updCol_ne (by decide) hu (hdist hm')
    · exact colAll_updCol_ne (by decide) hu hp

/-- `preprocess_enrolment`. -/
def preprocess_enrolment (df : Df) : Except PdErr Df :=
  match parse_dates df with
  | .error e => .error e
  | .ok d1 =>
    match validate_pincode (remove_invalid_records d1) with
    | .error e => .error e
    | .ok d3 =>
      match normalize_state_names d3 with
      | .error e => .error e
      | .ok d4 =>
        match add_temporal_features d4 with
        | .error e => .error e
        | .ok d5 => .ok (add_enrolment_totals d5)

/-- `preprocess_demographic`. -/
def preprocess_demographic (df : Df) : Except PdErr Df :=
  match parse_dates df with
  | .error e => .error e
  | .ok d1 =>
    match validate_pincode (remove_invalid_records d1) with
    | .error e => .error e
    | .ok d3 =>
      match normalize_state_names d3 with
      | .error e => .error e
      | .ok d4 =>
        match add_temporal_features d4 with
        | .error e => .error e
        | .ok d5 => .ok (add_update_totals d5 (strLit "demo"))

/-- `preprocess_biometric`. -/
def preprocess_biometric (df : Df) : Except PdErr Df :=
  match parse_dates df with
  | .error e => .error e
  | .ok d1 =>
    match validate_pincode (remove_invalid_records d1) with
    | .error e => .error e
    | .ok d3 =>
      match normalize_state_names d3 with
      | .error e => .error e
      | .ok d4 =>
        match add_temporal_features d4 with
        | .error e => .error e
        | .ok d5 => .ok (add_update_totals d5 (strLit "bio"))

theorem preprocess_enrolment_good {df out : Df} (hu : df.Uniform)
    (h : preprocess_enrolment df = .ok out) : ∀ r ∈ out.rows, GoodRow out r := by
  unfold preprocess_enrolment at h
  split at h
  · simp at h
  · rename_i d1 he1
    split at h
    · simp at h
    · rename_i d3 he3
      split at h
      · simp at h
      · rename_i d4 he4
        split at h
        · simp at h
        · rename_i d5 he5
          have hout : out = add_enrolment_totals d5 := (Except.ok.inj h).symm
          obtain ⟨hu5, hd, hs, hdist, hp⟩ := pipeline5_good hu he1 he3 he4 he5
          rw [hout]
          exact add_enrolment_totals_good hu5 hd hs hdist hp

theorem preprocess_demographic_good {df out : Df} (hu : df.Uniform)
    (h : preprocess_demographic df = .ok out) : ∀ r ∈ out.rows, GoodRow out r := by
  unfold preprocess_demographic at h
  split at h
  · simp at h
  · rename_i d1 he1
    split at h
    · simp at h
    · rename_i d3 he3
      split at h
      · simp at h
      · rename_i d4 he4
        split at h
        · simp at h
        · rename_i d5 he5
          have hout : out = add_update_totals d5 (strLit "demo") := (Except.ok.inj h).symm
          obtain ⟨hu5, hd, hs, hdist, hp⟩ := pipeline5_good hu he1 he3 he4 he5
          rw [hout]
          exact add_update_totals_good hu5 hd hs hdist hp

theorem preprocess_biometric_good {df out : Df} (hu : df.Uniform)
    (h : preprocess_biometric df = .ok out) : ∀ r ∈ out.rows, GoodRow out r := by
  unfold preprocess_biometric at h
  split at h
  · simp at h
  · rename_i d1 he1
    split at h
    · simp at h
    · rename_i d3 he3
      split at h
      · simp at h
      · rename_i d4 he4
        split at h
        · simp at h
        · rename_i d5 he5
          have hout : out = add_update_totals d5 (strLit "bio") := (Except.ok.inj h).symm
          obtain ⟨hu5, hd, hs, hdist, hp⟩ := pipeline5_good hu he1 he3 he4 he5
          rw [hout]
          exact add_update_totals_good hu5 hd hs hdist hp

example : parseDMY (strLit "1-1-2023") = some (1, 1, 2023) := by decide
example : parseDMY (strLit "2023/01/01") = none := by decide
example : parseDMY (strLit "2023-01-01") = none := by decide
example : parseDMY (strLit "invalid") = none := by decide
example : parseDMY (strLit "31-02-2023") = none := by decide
example : parseDMY (strLit "01-01-0999") = none := by decide
example : parseDMY (strLit "15-06-2023") = some (15, 6, 2023) := by decide
example : specStrictCheck (strLit "01-01-2023") = true := by decide
example : specStrictCheck (strLit "1-1-2023") = false := by decide
example : fmtDDMMYYYY 15 6 2023 = strLit "15-06-2023" := by decide

/-! ### Claims -/

/-- Claim C1 (amended).  In the cross-dataset comparison, a state present only
in the enrolment table appears in the merged result with zero demographic and
biometric update totals; its ratios are zero when its enrolment total is
nonzero and null when it is zero — and, in general, a ratio whose enrolment
denominator is zero is null. -/
theorem C1_comparative_ratios :
    (∀ (enrol demo bio : List (PyStr × Int)) (s : PyStr),
      s ∈ enrol.map Prod.fst → (∀ p ∈ demo, p.1 ≠ s) → (∀ p ∈ bio, p.1 ≠ s) →
      ∃ row ∈ comparative_state_metrics enrol demo bio,
        row.state = s ∧ row.demoUpdates = 0 ∧ row.bioUpdates = 0
        ∧ row.demoPerEnrol = (if row.enrolments = 0 then none else some 0)
        ∧ row.bioPerEnrol = (if row.enrolments = 0 then none else some 0))
    ∧ (∀ (enrol demo bio : List (PyStr × Int)),
      ∀ row ∈ comparative_state_metrics enrol demo bio, row.enrolments = 0 →
        row.demoPerEnrol = none ∧ row.bioPerEnrol = none) :=
  ⟨fun _ _ _ _ he hd hb => comparative_only_enrol_row he hd hb,
   fun _ _ _ => comparative_zero_enrol_null⟩

/-- Claim C1, counterexample to the claim as stated: a state present only in
the enrolment table with nonzero enrolments gets ratio `0`, not null. -/
theorem C1_comparative_ratios_cex :
    comparative_state_metrics [(strLit "Goa", 10)] [] []
      = [⟨strLit "Goa", 10, 0, 0, some 0, some 0, 10⟩]
    ∧ (some (0 : ℚ) : Option ℚ) ≠ none := by
  constructor
  · decide
  · decide

/-- Claim C1, witness. -/
theorem C1_comparative_ratios_witness :
    ∃ row ∈ comparative_state_metrics [(strLit "Goa", 10)] [(strLit "Kerala", 4)] [],
      row.state = strLit "Goa" ∧ row.demoUpdates = 0 ∧ row.bioUpdates = 0
      ∧ row.demoPerEnrol = (if row.enrolments = 0 then none else some 0)
      ∧ row.bioPerEnrol = (if row.enrolments = 0 then none else some 0) :=
  C1_comparative_ratios.1 [(strLit "Goa", 10)] [(strLit "Kerala", 4)] [] (strLit "Goa")
    (by decide) (by decide) (by decide)

/-- Claim C2 (amended).  Every casing variant of an alias-table key normalizes
to the key's canonical value, except that the two long Dadra aliases themselves
normalize to the canonical value with its lowercase `and` title-cased; inputs
whose stripped lowercase form matches no table key are stripped and
title-cased. -/
theorem C2_state_normalization :
    (∀ s k c, (k, c) ∈ STATE_NAME_MAP → pyLower s = pyLower k →
        pyStrip s ≠ dadraKey1 → pyStrip s ≠ dadraKey2 → normalizeStateName s = c)
    ∧ normalizeStateName dadraKey1 = strLit "Dadra & Nagar Haveli And Daman & Diu"
    ∧ normalizeStateName dadraKey2 = strLit "Dadra & Nagar Haveli And Daman & Diu"
    ∧ (∀ s, (∀ p ∈ STATE_NAME_MAP, pyLower (pyStrip s) ≠ pyLower p.1) →
        normalizeStateName s = pyTitle (pyStrip s)) :=
  ⟨normalizeStateName_of_lower_key, by decide, by decide, normalizeStateName_of_unknown⟩

/-- Claim C2, counterexample to the claim as stated: the alias-table key
`'Dadra And Nagar Haveli And Daman And Diu'` does not normalize to its
canonical value, because title-casing is applied after the replacement. -/
theorem C2_state_normalization_cex :
    (dadraKey1, strLit "Dadra & Nagar Haveli and Daman & Diu") ∈ STATE_NAME_MAP
    ∧ normalizeStateName dadraKey1 ≠ strLit "Dadra & Nagar Haveli and Daman & Diu" := by
  constructor
  · decide
  · decide

/-- Claim C2, witness. -/
theorem C2_state_normalization_witness :
    normalizeStateName (strLit "ORISSA") = strLit "Odisha" :=
  C2_state_normalization.1 (strLit "ORISSA") (strLit "Orissa") (strLit "Odisha")
    (by decide) (by decide) (by decide) (by decide)

/-- Claim C3 (amended).  Date parsing succeeds exactly when the string is
day-month-year with dash separators, a one- or two-digit day and month, an
exactly four-digit year, denoting a valid calendar date in the representable
timestamp range; every valid in-range date written `DD-MM-YYYY` parses back to
the same calendar date; any other string yields a null date, not an error. -/
theorem C3_date_parsing :
    (∀ s, (parseDMY s).isSome = true ↔ specFormatLax s)
    ∧ (∀ d m y, validDMY d m y = true → inNsBounds d m y = true →
        parseDMY (fmtDDMMYYYY d m y) = some (d, m, y)) :=
  ⟨parseDMY_isSome_iff, parseDMY_fmtDDMMYYYY⟩

/-- Claim C3, counterexample to the claim as stated: `'1-1-2023'` parses
successfully although it does not match the two-digit-day, two-digit-month
format. -/
theorem C3_date_parsing_cex :
    parseDMY (strLit "1-1-2023") = some (1, 1, 2023)
    ∧ specStrictCheck (strLit "1-1-2023") = false := by
  constructor
  · decide
  · decide

/-- Claim C3, witness. -/
theorem C3_date_parsing_witness :
    parseDMY (fmtDDMMYYYY 15 6 2023) = some (15, 6, 2023)
    ∧ specFormatLax (strLit "15-06-2023") :=
  ⟨C3_date_parsing.2 15 6 2023 (by decide) (by decide),
   (C3_date_parsing.1 (strLit "15-06-2023")).mp (by decide)⟩

/-- Claim C4 (amended).  Geographic aggregation sorts groups descending by
total and assigns sequential positional ranks `1..n`; tied totals receive
distinct consecutive ranks, not a shared dense rank. -/
theorem C4_state_rankings (l : List (PyStr × Int)) :
    (state_aggregations l).map AggRow.rank = List.range' 1 ((state_aggregations l).length)
    ∧ ((state_aggregations l).map AggRow.total).Pairwise (fun a b => b ≤ a) := by
  constructor
  · unfold state_aggregations
    rw [withRanks_map_rank, withRanks_length]
  · unfold state_aggregations
    rw [withRanks_map_total]
    exact List.pairwise_map.mpr (sortByDesc_pairwise _)

/-- Claim C4, counterexample to the claim as stated: two states with equal
totals receive ranks 1 and 2, not the same dense rank. -/
theorem C4_state_rankings_cex :
    (state_aggregations [(strLit "Goa", 5), (strLit "Kerala", 5)]).map AggRow.total = [5, 5]
    ∧ (state_aggregations [(strLit "Goa", 5), (strLit "Kerala", 5)]).map AggRow.rank
      = [1, 2] := by
  constructor
  · decide
  · decide

/-- Claim C5 (amended).  The IQR method attaches to every row a boolean
`is_anomaly` flag and an `anomaly_type` category in {low, high, normal}; the
z-score method attaches a boolean flag and a numeric score but no category
column. -/
theorem C5_anomaly_columns :
    (∀ df col mult out, df.Uniform → detect_anomalies_iqr df col mult = .ok out →
      ColAll out (strLit "is_anomaly") (fun v => ∃ b, v = Val.vBool b)
      ∧ ColAll out (strLit "anomaly_type") (fun v => v = Val.vStr (strLit "low")
          ∨ v = Val.vStr (strLit "high") ∨ v = Val.vStr (strLit "normal")))
    ∧ (∀ df col t out, df.Uniform → detect_anomalies_zscore df col t = .ok out →
      ColAll out (strLit "is_anomaly") (fun v => ∃ b, v = Val.vBool b)
      ∧ (strLit "anomaly_type" ∉ df.header → strLit "anomaly_type" ∉ out.header)) :=
  ⟨fun _ _ _ _ hu h => detect_iqr_cells hu h,
   fun _ _ _ _ hu h => detect_zscore_cells hu h⟩

/-- Claim C5, counterexample to the claim as stated: the z-score method's
output carries no `anomaly_type` column and no category value in any cell. -/
theorem C5_anomaly_columns_cex :
    detect_anomalies_zscore ⟨[strLit "v"], [[Val.vNum 1], [Val.vNum 2]]⟩ (strLit "v") 3
      = .ok ⟨[strLit "v", strLit "zscore", strLit "is_anomaly"],
          [[Val.vNum 1, Val.vNum 1, Val.vBool false],
           [Val.vNum 2, Val.vNum 1, Val.vBool false]]⟩
    ∧ strLit "anomaly_type" ∉ [strLit "v", strLit "zscore", strLit "is_anomaly"] := by
  constructor
  · decide
  · decide

/-- Claim C5, witness. -/
theorem C5_anomaly_columns_witness :
    ColAll ⟨[strLit "v", strLit "is_anomaly", strLit "anomaly_type"],
        [[Val.vNum 1, Val.vBool false, Val.vStr (strLit "normal")]]⟩
      (strLit "is_anomaly") (fun v => ∃ b, v = Val.vBool b) :=
  (C5_anomaly_columns.1 ⟨[strLit "v"], [[Val.vNum 1]]⟩ (strLit "v") (3 / 2)
    ⟨[strLit "v", strLit "is_anomaly", strLit "anomaly_type"],
      [[Val.vNum 1, Val.vBool false, Val.vStr (strLit "normal")]]⟩
    (by decide) (by decide)).1

/-- Claim C6.  On degenerate input neither detection method raises: a constant
(zero-variance) column makes the z-score method flag zero anomalies regardless
of the threshold, and an empty series yields an empty anomaly result from both
methods rather than an error. -/
theorem C6_degenerate_input :
    (∀ df col t q out, df.Uniform → (∀ r ∈ df.rows, cellOf df col r = Val.vNum q) →
      detect_anomalies_zscore df col t = .ok out →
      ColAll out (strLit "is_anomaly") (· = Val.vBool false))
    ∧ (∀ df col t, col ∈ df.header → df.rows = [] →
        ∃ out, detect_anomalies_zscore df col t = .ok out ∧ out.rows = [])
    ∧ (∀ df col mult, col ∈ df.header → df.rows = [] →
        ∃ out, detect_anomalies_iqr df col mult = .ok out ∧ out.rows = []) :=
  ⟨fun _ _ _ _ _ hu hc h => detect_zscore_const_flags hu hc h,
   fun _ _ _ hm hr => detect_zscore_empty hm hr,
   fun _ _ _ hm hr => detect_iqr_empty hm hr⟩

/-- Claim C6, witness (constant column, negative threshold; empty series). -/
theorem C6_degenerate_input_witness :
    ColAll ⟨[strLit "v", strLit "zscore", strLit "is_anomaly"],
        [[Val.vNum 7, Val.vNull, Val.vBool false], [Val.vNum 7, Val.vNull, Val.vBool false]]⟩
      (strLit "is_anomaly") (· = Val.vBool false)
    ∧ (∃ out, detect_anomalies_zscore ⟨[strLit "v"], []⟩ (strLit "v") 3 = .ok out
        ∧ out.rows = []) :=
  ⟨C6_degenerate_input.1 ⟨[strLit "v"], [[Val.vNum 7], [Val.vNum 7]]⟩ (strLit "v") (-1) 7
      ⟨[strLit "v", strLit "zscore", strLit "is_anomaly"],
        [[Val.vNum 7, Val.vNull, Val.vBool false], [Val.vNum 7, Val.vNull, Val.vBool false]]⟩
      (by decide) (by decide) (by decide),
   C6_degenerate_input.2.1 ⟨[strLit "v"], []⟩ (strLit "v") 3 (by decide) (by decide)⟩

/-- Claim C7 (amended).  Date parsing, PIN validation, state normalization and
temporal-feature derivation fail loudly with a key error when their expected
column is absent, but the totals derivations silently return the table
unchanged when their constituent columns are missing. -/
theorem C7_missing_columns :
    (∀ df, strLit "date" ∉ df.header →
      parse_dates df = .error (.keyError (strLit "date")))
    ∧ (∀ df, strLit "pincode" ∉ df.header →
      validate_pincode df = .error (.keyError (strLit "pincode")))
    ∧ (∀ df, strLit "state" ∉ df.header →
      normalize_state_names df = .error (.keyError (strLit "state")))
    ∧ (∀ df, strLit "date" ∉ df.header →
      add_temporal_features df = .error (.keyError (strLit "date")))
    ∧ (∀ df c, c ∈ ageCols → c ∉ df.header → add_enrolment_totals df = df)
    ∧ (∀ df pref, (∀ c ∈ df.header, pref.isPrefixOf c = false) →
        add_update_totals df pref = df) :=
  ⟨fun _ h => parse_dates_missing h, fun _ h => validate_pincode_missing h,
   fun _ h => normalize_state_names_missing h, fun _ h => add_temporal_features_missing h,
   fun _ _ hc h => add_enrolment_totals_missing hc h,
   fun _ _ h => add_update_totals_nopref h⟩

/-- Claim C7, counterexample to the claim as stated: enrolment-totals
derivation on a table without the age columns silently returns the table
unchanged — without the total column and without an error. -/
theorem C7_missing_columns_cex :
    add_enrolment_totals ⟨[strLit "state"], [[Val.vStr (strLit "Goa")]]⟩
      = ⟨[strLit "state"], [[Val.vStr (strLit "Goa")]]⟩ := by
  decide

/-- Claim C7, witness. -/
theorem C7_missing_columns_witness :
    parse_dates ⟨[strLit "state"], []⟩ = .error (.keyError (strLit "date")) :=
  C7_missing_columns.1 ⟨[strLit "state"], []⟩ (by decide)

/-- Claim C8.  Every record in the output of a full preprocessing pipeline has
a non-null date, non-null state, non-null district whenever a district column
exists, and a PIN code that is a string of exactly six ASCII digits. -/
theorem C8_pipeline_invariants :
    (∀ df out, df.Uniform → preprocess_enrolment df = .ok out →
      ∀ r ∈ out.rows, GoodRow out r)
    ∧ (∀ df out, df.Uniform → preprocess_demographic df = .ok out →
      ∀ r ∈ out.rows, GoodRow out r)
    ∧ (∀ df out, df.Uniform → preprocess_biometric df = .ok out →
      ∀ r ∈ out.rows, GoodRow out r) :=
  ⟨fun _ _ hu h => preprocess_enrolment_good hu h,
   fun _ _ hu h => preprocess_demographic_good hu h,
   fun _ _ hu h => preprocess_biometric_good hu h⟩

/-- Concrete enrolment input for the C8 witness. -/
def c8InDf : Df :=
  ⟨[strLit "date", strLit "state", strLit "district", strLit "pincode",
    strLit "age_0_5", strLit "age_5_17", strLit "age_18_greater"],
   [[Val.vStr (strLit "15-06-2023"), Val.vStr (strLit "Goa"), Val.vStr (strLit "North Goa"),
     Val.vStr (strLit "403001"), Val.vNum 1, Val.vNum 2, Val.vNum 3],
    [Val.vStr (strLit "bad-date"), Val.vStr (strLit "Goa"), Val.vStr (strLit "North Goa"),
     Val.vStr (strLit "403001"), Val.vNum 1, Val.vNum 2, Val.vNum 3],
    [Val.vStr (strLit "15-06-2023"), Val.vStr (strLit "Orissa"), Val.vStr (strLit "Kendrapara"),
     Val.vStr (strLit "12345"), Val.vNum 1, Val.vNum 2, Val.vNum 3]]⟩

/-- The preprocessed C8 witness table. -/
def c8OutDf : Df :=
  match preprocess_enrolment c8InDf with
  | .ok d => d
  | .error _ => ⟨[], []⟩

/-- Claim C8, witness. -/
theorem C8_pipeline_invariants_witness : ∀ r ∈ c8OutDf.rows, GoodRow c8OutDf r :=
  C8_pipeline_invariants.1 c8InDf c8OutDf (by decide) (by decide)

/-- Claim C10.  The IQR method never flags a null-valued row and never drops
it: the row stays at its index with flag `false`, category `normal`, and all
its other columns unchanged (nulls are skipped, not zero-filled, when the
bounds are computed from `iqrNums`). -/
theorem C10_iqr_null_rows :
    ∀ df col mult out, df.Uniform →
      col ≠ strLit "is_anomaly" → col ≠ strLit "anomaly_type" →
      detect_anomalies_iqr df col mult = .ok out →
      out.rows.length = df.rows.length
      ∧ ∀ k r, df.rows.get? k = some r → cellOf df col r = Val.vNull →
        ∃ r', out.rows.get? k = some r'
          ∧ cellOf out (strLit "is_anomaly") r' = Val.vBool false
          ∧ cellOf out (strLit "anomaly_type") r' = Val.vStr (strLit "normal")
          ∧ ∀ m, m ≠ strLit "is_anomaly" → m ≠ strLit "anomaly_type" →
              cellOf out m r' = cellOf df m r :=
  fun _ _ _ _ hu h1 h2 h => detect_iqr_null_row hu h1 h2 h

/-- Concrete series (with a null) for the C10 witness. -/
def c10InDf : Df := ⟨[strLit "v"], [[Val.vNull], [Val.vNum 1], [Val.vNum 2], [Val.vNum 3]]⟩

/-- The annotated C10 witness table. -/
def c10OutDf : Df :=
  match detect_anomalies_iqr c10InDf (strLit "v") (3 / 2) with
  | .ok d => d
  | .error _ => ⟨[], []⟩

/-- Claim C10, witness. -/
theorem C10_iqr_null_rows_witness :
    c10OutDf.rows.length = c10InDf.rows.length
    ∧ ∃ r', c10OutDf.rows.get? 0 = some r'
        ∧ cellOf c10OutDf (strLit "is_anomaly") r' = Val.vBool false
        ∧ cellOf c10OutDf (strLit "anomaly_type") r' = Val.vStr (strLit "normal")
        ∧ ∀ m, m ≠ strLit "is_anomaly" → m ≠ strLit "anomaly_type" →
            cellOf c10OutDf m r' = cellOf c10InDf m [Val.vNull] :=
  ⟨(C10_iqr_null_rows c10InDf (strLit "v") (3 / 2) c10OutDf (by decide) (by decide)
      (by decide) (by decide)).1,
   (C10_iqr_null_rows c10InDf (strLit "v") (3 / 2) c10OutDf (by decide) (by decide)
      (by decide) (by decide)).2 0 [Val.vNull] (by decide) (by decide)⟩

end AadhaarSpec
